import Mathlib

/-!
Verification development for the chunked, asynchronously populated spatial
data map of the `random-rust-simulator-bevy` repository.

The definitions below are a shallow embedding of the Rust source:

* `src/core/chunks.rs` — `ChunkCoords`, `FlatGrid`, `DataChunk`, the
  single-buffered `DataMap` with its `get` / `get_option` / `read` / `write` /
  `init` operations, and the per-tick loader / spawn / completion-merge passes;
* `src/core/chunks_double_buf.rs` — the double-buffered variant
  `DataMapDoubleBuffered` with `swap_buffers`;
* `src/game/render/light_sim/directions.rs` — the light simulator's
  `Direction` and its neighbor computations.

Machine integers `isize` / `usize` are embedded as `Int` / `Nat` (no
arithmetic in the source wraps in the ranges under study).  The source
computes chunk coordinates from tile coordinates through `f32` arithmetic
(`(point.x as f32 / chunk_dimension_tiles as f32).floor() as isize`), so an
exact integer model of IEEE-754 binary32 round-to-nearest-even conversion and
division is included; it is exact for finite values in the normal range,
which covers every quantity reachable from `isize` tile coordinates and a
positive `usize` chunk dimension.  Bevy's `HashMap` / `HashSet` fields are
embedded as association lists / lists of keys; the ECS `Entity` handle that
`pending_tasks` maps each coordinate to is opaque in the source (only key
membership is ever consulted), so `pending_tasks` keeps the keys.
-/

namespace ChunkSim

/-- Absolute world tile coordinate: the source's `Point { x: isize, y: isize }`. -/
structure Point where
  x : Int
  y : Int
deriving DecidableEq

/-- Absolute chunk coordinate: the source's `ChunkCoords { x: isize, y: isize }`. -/
structure ChunkCoords where
  x : Int
  y : Int
deriving DecidableEq

/-- Fuel-based bit length of a natural number (`bitlen 256 n` is exact for
every `n < 2 ^ 256`; all quantities in this development are far smaller).
Written with explicit fuel so the kernel can evaluate it. -/
def bitlenAux : Nat → Nat → Nat
  | 0, _ => 0
  | fuel + 1, n => if n = 0 then 0 else bitlenAux fuel (n / 2) + 1

/-- Bit length of a natural number: `0` for `0`, otherwise the exponent of the
leading bit plus one. -/
def bitlen (n : Nat) : Nat := bitlenAux 256 n

/-- Round-half-to-even of the rational `p / q` for naturals, `q > 0`:
the rounding used by IEEE-754 round-to-nearest-even arithmetic. -/
def rhe (p q : Nat) : Nat :=
  let d := p / q
  let r := p % q
  if 2 * r < q then d
  else if q < 2 * r then d + 1
  else if d % 2 = 0 then d
  else d + 1

/-- A finite IEEE-754 binary32 value represented exactly as `m * 2 ^ e`
(sign carried by `m`).  The representation is not normalized; only the
denoted real value matters. -/
structure F32 where
  m : Int
  e : Int

/-- Rust's `as f32` cast of an integer: round to nearest at 24 significand
bits, ties to even (exact model in the normal range, i.e. for every `isize`
and `usize` value). -/
def roundIntToF32 (n : Int) : F32 :=
  let a := n.natAbs
  let L := bitlen a
  if L ≤ 24 then ⟨n, 0⟩
  else
    let sh := L - 24
    ⟨n.sign * (rhe a (2 ^ sh) : Int), (sh : Int)⟩

/-- IEEE-754 binary32 division, round to nearest, ties to even.  Exact model
for finite operands with nonzero divisor and a quotient in the normal range,
which holds for every division performed by `ChunkCoords::from_point` with a
positive chunk dimension. -/
def f32Div (a b : F32) : F32 :=
  if a.m = 0 then ⟨0, 0⟩
  else
    let s : Int := a.m.sign * b.m.sign
    let p := a.m.natAbs
    let q := b.m.natAbs
    let base : Int := (bitlen p : Int) - (bitlen q : Int)
    let exp0 : Int :=
      if q * 2 ^ (max 0 base).toNat ≤ p * 2 ^ (max 0 (-base)).toNat then base
      else base - 1
    let shift : Int := 23 - exp0
    let num := p * 2 ^ (max 0 shift).toNat
    let den := q * 2 ^ (max 0 (-shift)).toNat
    ⟨s * (rhe num den : Int), a.e - b.e + exp0 - 23⟩

/-- Rust's `.floor() as isize` applied to a finite `F32` value (the floor of
an f32 is exactly representable, and the cast of an integral float inside the
`isize` range is exact). -/
def F32.floorToInt (a : F32) : Int :=
  if 0 ≤ a.e then a.m * 2 ^ a.e.toNat else Int.fdiv a.m (2 ^ (-a.e).toNat)

/-- Rust's `.ceil() as isize` applied to a finite `F32` value. -/
def F32.ceilToInt (a : F32) : Int :=
  if 0 ≤ a.e then a.m * 2 ^ a.e.toNat else -Int.fdiv (-a.m) (2 ^ (-a.e).toNat)

/-- `ChunkCoords::from_point` (src/core/chunks.rs:41-46): converts a world
tile `Point` to `ChunkCoords` by the source's f32 computation
`(coordinate as f32 / chunk_dimension_tiles as f32).floor() as isize`
on each axis. -/
def ChunkCoords.from_point (point : Point) (chunk_dimension_tiles : Nat) :
    ChunkCoords where
  x := (f32Div (roundIntToF32 point.x)
        (roundIntToF32 chunk_dimension_tiles)).floorToInt
  y := (f32Div (roundIntToF32 point.y)
        (roundIntToF32 chunk_dimension_tiles)).floorToInt

/-- `ChunkCoords::to_bottom_left_tile_point` (src/core/chunks.rs:57-62). -/
def ChunkCoords.to_bottom_left_tile_point (c : ChunkCoords) (d : Nat) : Point where
  x := c.x * d
  y := c.y * d

/-- Local (within-chunk) coordinate as computed inline in `DataMap::get`,
`get_option`, `read` and `write` (src/core/chunks.rs): the `isize` expression
`(v % d + d) % d` (Rust `%` is truncating remainder) followed by the cast to
`usize`. -/
def localCoord (v : Int) (d : Nat) : Nat := ((Int.tmod v d + d).tmod d).toNat

/-- Local (within-chunk) coordinate as computed in `DataMapDoubleBuffered`
(src/core/chunks_double_buf.rs): `v.rem_euclid(d) as usize`. -/
def localCoordE (v : Int) (d : Nat) : Nat := (v % (d : Int)).toNat

/-- The source's `FlatGrid<T>` (src/core/chunks.rs:84-147): a dense row-major
`Vec` of `dimension * dimension` cells.  The length invariant is maintained
by the Rust type (its only constructor allocates `dimension * dimension`
elements and no operation changes the length), so it is carried as a proof
field. -/
structure FlatGrid (T : Type) where
  data : List T
  dimension : Nat
  wf : data.length = dimension * dimension

/-- `FlatGrid::new` (src/core/chunks.rs:96-102). -/
def FlatGrid.new (T : Type) (dimension : Nat) (default_value : T) : FlatGrid T :=
  ⟨List.replicate (dimension * dimension) default_value, dimension, by simp⟩

/-- `FlatGrid::calculate_index` (src/core/chunks.rs:104-110). -/
def FlatGrid.calculate_index {T : Type} (g : FlatGrid T) (x y : Nat) : Option Nat :=
  if x < g.dimension ∧ y < g.dimension then some (y * g.dimension + x) else none

/-- `FlatGrid::get_item` (src/core/chunks.rs:123-125): `None` out of bounds,
otherwise the cell at the computed row-major index. -/
def FlatGrid.get_item {T : Type} (g : FlatGrid T) (x y : Nat) : Option T :=
  (g.calculate_index x y).bind fun idx => g.data[idx]?

/-- `FlatGrid::set_item` (src/core/chunks.rs:131-138): writes the cell and
reports `true` when in bounds, otherwise reports `false` and leaves the grid
unchanged.  The mutation of `&mut self` is embedded by returning the new grid
next to the `bool`. -/
def FlatGrid.set_item {T : Type} (g : FlatGrid T) (x y : Nat) (item : T) :
    Bool × FlatGrid T :=
  match g.calculate_index x y with
  | some idx =>
      (true, ⟨g.data.set idx item, g.dimension, by
        rw [List.length_set]; exact g.wf⟩)
  | none => (false, g)

/-- `DataChunk<T>` (src/core/chunks.rs:151-153). -/
structure DataChunk (T : Type) where
  grid : FlatGrid T

/-- Lookup in an association list (embedding of `HashMap::get`). -/
def mapLookup {K V : Type} [DecidableEq K] (k : K) : List (K × V) → Option V
  | [] => none
  | kv :: rest => if kv.1 = k then some kv.2 else mapLookup k rest

/-- Removal from an association list (embedding of `HashMap::remove`). -/
def mapRemove {K V : Type} [DecidableEq K] (k : K) : List (K × V) → List (K × V)
  | [] => []
  | kv :: rest => if kv.1 = k then mapRemove k rest else kv :: mapRemove k rest

/-- Insertion into an association list (embedding of `HashMap::insert`:
replaces any existing entry for the key). -/
def mapInsert {K V : Type} [DecidableEq K] (k : K) (v : V) (l : List (K × V)) :
    List (K × V) :=
  (k, v) :: mapRemove k l

/-- Insertion into a key list (embedding of `HashSet::insert`). -/
def setInsert {K : Type} [DecidableEq K] (k : K) (l : List K) : List K :=
  if k ∈ l then l else l ++ [k]

/-- Keys of an association list. -/
def mapKeys {K V : Type} (l : List (K × V)) : List K := l.map Prod.fst

/-- The single-buffered `DataMap<P>` resource (src/core/chunks.rs:177-187).
The pluggable producer `P` is represented by the only datum of it the map's
own logic consumes, `producer.default_value()`; generated chunks enter the
model as parameters of the completion-merge pass.  `chunk_size_units` and
`render_distance_chunks` only feed the focus-driven loader, which is
parametrized directly by its computed focus chunk below. -/
structure DataMap (T : Type) where
  loaded_chunks : List (ChunkCoords × DataChunk T)
  requested_chunks : List ChunkCoords
  pending_tasks : List ChunkCoords
  write_queue : List (Point × T)
  default_value : T
  chunk_dimension_tiles : Nat
  render_distance_chunks : Nat

/-- `DataMap::new` (src/core/chunks.rs:190-202). -/
def DataMap.new (T : Type) (default_value : T) (chunk_dimension_tiles : Nat)
    (render_distance_chunks : Nat) : DataMap T :=
  { loaded_chunks := []
    requested_chunks := []
    pending_tasks := []
    write_queue := []
    default_value := default_value
    chunk_dimension_tiles := chunk_dimension_tiles
    render_distance_chunks := render_distance_chunks }

/-- `DataMap::get` (src/core/chunks.rs:208-232): write-queue hit first, then
the loaded chunk's cell (falling back to the producer default if the grid
lookup fails), else insert the coord into `requested_chunks` and return the
producer default.  Mutation of `&mut self` is embedded by returning the new
map next to the value. -/
def DataMap.get {T : Type} (m : DataMap T) (point : Point) : T × DataMap T :=
  match mapLookup point m.write_queue with
  | some queued_value => (queued_value, m)
  | none =>
    let chunk_coords := ChunkCoords.from_point point m.chunk_dimension_tiles
    match mapLookup chunk_coords m.loaded_chunks with
    | some chunk =>
        ((chunk.grid.get_item (localCoord point.x m.chunk_dimension_tiles)
            (localCoord point.y m.chunk_dimension_tiles)).getD m.default_value,
         m)
    | none =>
        (m.default_value,
         { m with requested_chunks := setInsert chunk_coords m.requested_chunks })

/-- `DataMap::get_option` (src/core/chunks.rs:249-268): like `get` but
returns `none` on a miss (still requesting the chunk). -/
def DataMap.get_option {T : Type} (m : DataMap T) (point : Point) :
    Option T × DataMap T :=
  match mapLookup point m.write_queue with
  | some queued_value => (some queued_value, m)
  | none =>
    let chunk_coords := ChunkCoords.from_point point m.chunk_dimension_tiles
    match mapLookup chunk_coords m.loaded_chunks with
    | some chunk =>
        (chunk.grid.get_item (localCoord point.x m.chunk_dimension_tiles)
           (localCoord point.y m.chunk_dimension_tiles), m)
    | none =>
        (none,
         { m with requested_chunks := setInsert chunk_coords m.requested_chunks })

/-- `DataMap::read` (src/core/chunks.rs:284-300): pure lookup, write queue
first, never requests. -/
def DataMap.read {T : Type} (m : DataMap T) (point : Point) : Option T :=
  match mapLookup point m.write_queue with
  | some queued_value => some queued_value
  | none =>
    let chunk_coords := ChunkCoords.from_point point m.chunk_dimension_tiles
    (mapLookup chunk_coords m.loaded_chunks).bind fun chunk =>
      chunk.grid.get_item (localCoord point.x m.chunk_dimension_tiles)
        (localCoord point.y m.chunk_dimension_tiles)

/-- `DataMap::write` (src/core/chunks.rs:316-334): write into the loaded
chunk's grid and drop any stale write-queue entry, else queue the write and
request the chunk. -/
def DataMap.write {T : Type} (m : DataMap T) (point : Point) (value : T) :
    DataMap T :=
  let chunk_coords := ChunkCoords.from_point point m.chunk_dimension_tiles
  match mapLookup chunk_coords m.loaded_chunks with
  | some chunk =>
      let grid2 := (chunk.grid.set_item (localCoord point.x m.chunk_dimension_tiles)
        (localCoord point.y m.chunk_dimension_tiles) value).2
      { m with
          loaded_chunks := mapInsert chunk_coords ⟨grid2⟩ m.loaded_chunks
          write_queue := mapRemove point m.write_queue }
  | none =>
      { m with
          write_queue := mapInsert point value m.write_queue
          requested_chunks := setInsert chunk_coords m.requested_chunks }

/-- Integer offsets `-r ..= r` (empty when `r < 0`), the iteration space of
the source's nested loader and `init` loops. -/
def offsetRange (r : Int) : List Int :=
  if r < 0 then [] else (List.range (2 * r.toNat + 1)).map fun i => (i : Int) - r

/-- The chunk radius computed by `DataMap::init` (src/core/chunks.rs:342-343):
`(manhattan_distance_tiles as f32 / self.chunk_dimension_tiles as f32).ceil() as isize`. -/
def chunkManhattanDistance (manhattan_distance_tiles d : Nat) : Int :=
  (f32Div (roundIntToF32 manhattan_distance_tiles) (roundIntToF32 d)).ceilToInt

/-- `DataMap::init` (src/core/chunks.rs:338-365): request every chunk in the
square radius around the origin chunk that is neither loaded nor pending. -/
def DataMap.init {T : Type} (m : DataMap T) (manhattan_distance_tiles : Nat) :
    DataMap T :=
  let r := chunkManhattanDistance manhattan_distance_tiles m.chunk_dimension_tiles
  (offsetRange r).foldl (fun acc x_offset =>
    (offsetRange r).foldl (fun acc2 y_offset =>
      let current_chunk_coords : ChunkCoords := ⟨0 + x_offset, 0 + y_offset⟩
      if current_chunk_coords ∉ mapKeys acc2.loaded_chunks ∧
          current_chunk_coords ∉ acc2.pending_tasks then
        { acc2 with
            requested_chunks := setInsert current_chunk_coords acc2.requested_chunks }
      else acc2) acc) m

/-- The `required_chunks_set` built by the loader systems
(src/core/chunks.rs:378-391): the Chebyshev square of radius
`render_distance_chunks` around the focus chunk. -/
def requiredChunksSet (focus : ChunkCoords) (render_distance_chunks : Nat) :
    List ChunkCoords :=
  (offsetRange render_distance_chunks).foldl (fun acc dx =>
    (offsetRange render_distance_chunks).foldl (fun acc2 dy =>
      setInsert ⟨focus.x + dx, focus.y + dy⟩ acc2) acc) []

/-- The request loop shared by both loader systems
(src/core/chunks.rs:399-407 and 441-449): request each required chunk that is
neither loaded nor pending nor already requested. -/
def loaderRequestPass {T : Type} (required : List ChunkCoords) (m : DataMap T) :
    DataMap T :=
  required.foldl (fun acc c =>
    if c ∉ mapKeys acc.loaded_chunks ∧ c ∉ acc.pending_tasks ∧
        c ∉ acc.requested_chunks then
      { acc with requested_chunks := setInsert c acc.requested_chunks }
    else acc) m

/-- `data_map_load_unload_system` (src/core/chunks.rs:369-409), parametrized
by the focus chunk coordinate computed for each `MapRevealActor` transform
(the `from_world_pos` conversion of an externally supplied float position).
The eviction `retain` is commented out in this variant, so it only requests. -/
def data_map_load_unload_system {T : Type} (focuses : List ChunkCoords)
    (m : DataMap T) : DataMap T :=
  focuses.foldl (fun acc focus =>
    loaderRequestPass (requiredChunksSet focus acc.render_distance_chunks) acc) m

/-- `data_map_load_unload_system_for_player` (src/core/chunks.rs:411-451):
evicts loaded chunks outside the required set, then requests missing ones. -/
def data_map_load_unload_system_for_player {T : Type} (focuses : List ChunkCoords)
    (m : DataMap T) : DataMap T :=
  focuses.foldl (fun acc focus =>
    let required := requiredChunksSet focus acc.render_distance_chunks
    let acc1 := { acc with
      loaded_chunks := acc.loaded_chunks.filter fun cv => cv.1 ∈ required }
    loaderRequestPass required acc1) m

/-- `data_map_spawn_tasks_system` (src/core/chunks.rs:454-495): for every
requested coord not already pending, spawn one generation job and collect it
in `new_pending_tasks`; then record them all in `pending_tasks` and clear
`requested_chunks`.  The returned list holds the coordinates of the jobs
spawned by this pass (one list element per `thread_pool.spawn` call). -/
def data_map_spawn_tasks_system {T : Type} (m : DataMap T) :
    DataMap T × List ChunkCoords :=
  let new_pending_tasks :=
    m.requested_chunks.foldl (fun acc coords =>
      if coords ∈ m.pending_tasks then acc else acc ++ [coords]) []
  ({ m with
      pending_tasks := new_pending_tasks.foldl (fun pd c => pd ++ [c]) m.pending_tasks
      requested_chunks := [] },
   new_pending_tasks)

/-- The write-queue membership test of the completion-merge passes
(src/core/chunks.rs:531-535 and src/core/chunks_double_buf.rs:363-367):
whether `p` lies in the chunk's tile bounding box
`bottom-left ≤ p < bottom-left + dimension` on both axes. -/
def inChunkBox (bl : Point) (d : Nat) (p : Point) : Bool :=
  decide (bl.x ≤ p.x) && decide (p.x < bl.x + d) &&
  decide (bl.y ≤ p.y) && decide (p.y < bl.y + d)

/-- The write-queue flush of `data_map_process_completed_tasks_system`
(src/core/chunks.rs:524-546): walk the write queue, apply every entry inside
the chunk's bounding box to the generated grid, and collect those points as
`points_to_remove`. -/
def flushWrites {T : Type} (bl : Point) (d : Nat) (wq : List (Point × T))
    (grid : FlatGrid T) : FlatGrid T × List Point :=
  wq.foldl (fun acc pv =>
    if inChunkBox bl d pv.1 then
      ((acc.1.set_item (localCoord pv.1.x d) (localCoord pv.1.y d) pv.2).2,
       acc.2 ++ [pv.1])
    else acc) (grid, [])

/-- One completed chunk's merge step of
`data_map_process_completed_tasks_system` (src/core/chunks.rs:514-553): flush
matching write-queue entries into the generated grid, remove those points
from the queue, and insert the patched chunk into `loaded_chunks`. -/
def applyCompletedChunk {T : Type} (coords : ChunkCoords) (chunk : DataChunk T)
    (m : DataMap T) : DataMap T :=
  let chunk_bottom_left_tile :=
    coords.to_bottom_left_tile_point m.chunk_dimension_tiles
  let fr := flushWrites chunk_bottom_left_tile m.chunk_dimension_tiles
    m.write_queue chunk.grid
  { m with
      write_queue := fr.2.foldl (fun q pt => mapRemove pt q) m.write_queue
      loaded_chunks := mapInsert coords ⟨fr.1⟩ m.loaded_chunks }

/-- `data_map_process_completed_tasks_system` (src/core/chunks.rs:498-555),
parametrized by the finished generation jobs the non-blocking poll found this
tick (`completed_chunks` in the source): first every completed coord is
dropped from `pending_tasks`, then each generated chunk is merged. -/
def data_map_process_completed_tasks_system {T : Type}
    (completed : List (ChunkCoords × DataChunk T)) (m : DataMap T) : DataMap T :=
  let m1 := { m with
    pending_tasks :=
      completed.foldl (fun pd cc => pd.filter (fun c => c ≠ cc.1)) m.pending_tasks }
  completed.foldl (fun acc cc => applyCompletedChunk cc.1 cc.2 acc) m1

/-- The double-buffered `DataMapDoubleBuffered<P>` resource
(src/core/chunks_double_buf.rs:35-54). -/
structure DataMapDoubleBuffered (T : Type) where
  read_buffer : List (ChunkCoords × DataChunk T)
  write_buffer : List (ChunkCoords × DataChunk T)
  requested_chunks : List ChunkCoords
  pending_tasks : List ChunkCoords
  write_queue : List (Point × T)
  default_value : T
  chunk_dimension_tiles : Nat
  render_distance_chunks : Nat

/-- `DataMapDoubleBuffered::new` (src/core/chunks_double_buf.rs:57-74). -/
def DataMapDoubleBuffered.new (T : Type) (default_value : T)
    (chunk_dimension_tiles : Nat) (render_distance_chunks : Nat) :
    DataMapDoubleBuffered T :=
  { read_buffer := []
    write_buffer := []
    requested_chunks := []
    pending_tasks := []
    write_queue := []
    default_value := default_value
    chunk_dimension_tiles := chunk_dimension_tiles
    render_distance_chunks := render_distance_chunks }

/-- `DataMapDoubleBuffered::swap_buffers` (src/core/chunks_double_buf.rs:80-82). -/
def DataMapDoubleBuffered.swap_buffers {T : Type} (m : DataMapDoubleBuffered T) :
    DataMapDoubleBuffered T :=
  { m with read_buffer := m.write_buffer, write_buffer := m.read_buffer }

/-- `DataMapDoubleBuffered::read` (src/core/chunks_double_buf.rs:157-168):
write-queue hit first, then a pure lookup in the read buffer. -/
def DataMapDoubleBuffered.read {T : Type} (m : DataMapDoubleBuffered T)
    (point : Point) : Option T :=
  match mapLookup point m.write_queue with
  | some queued_value => some queued_value
  | none =>
    let chunk_coords := ChunkCoords.from_point point m.chunk_dimension_tiles
    (mapLookup chunk_coords m.read_buffer).bind fun chunk =>
      chunk.grid.get_item (localCoordE point.x m.chunk_dimension_tiles)
        (localCoordE point.y m.chunk_dimension_tiles)

/-- `DataMapDoubleBuffered::get` (src/core/chunks_double_buf.rs:98-116):
reads target the read buffer; a miss requests the chunk and yields the
producer default. -/
def DataMapDoubleBuffered.get {T : Type} (m : DataMapDoubleBuffered T)
    (point : Point) : T × DataMapDoubleBuffered T :=
  match mapLookup point m.write_queue with
  | some queued_value => (queued_value, m)
  | none =>
    let chunk_coords := ChunkCoords.from_point point m.chunk_dimension_tiles
    match mapLookup chunk_coords m.read_buffer with
    | some chunk =>
        ((chunk.grid.get_item (localCoordE point.x m.chunk_dimension_tiles)
            (localCoordE point.y m.chunk_dimension_tiles)).getD m.default_value,
         m)
    | none =>
        (m.default_value,
         { m with requested_chunks := setInsert chunk_coords m.requested_chunks })

/-- `DataMapDoubleBuffered::write` (src/core/chunks_double_buf.rs:183-194):
writes target the write buffer; if the chunk is not there the write is queued
and the chunk requested. -/
def DataMapDoubleBuffered.write {T : Type} (m : DataMapDoubleBuffered T)
    (point : Point) (value : T) : DataMapDoubleBuffered T :=
  let chunk_coords := ChunkCoords.from_point point m.chunk_dimension_tiles
  match mapLookup chunk_coords m.write_buffer with
  | some chunk =>
      let grid2 := (chunk.grid.set_item (localCoordE point.x m.chunk_dimension_tiles)
        (localCoordE point.y m.chunk_dimension_tiles) value).2
      { m with
          write_buffer := mapInsert chunk_coords ⟨grid2⟩ m.write_buffer
          write_queue := mapRemove point m.write_queue }
  | none =>
      { m with
          write_queue := mapInsert point value m.write_queue
          requested_chunks := setInsert chunk_coords m.requested_chunks }

/-- The `write_queue.retain` flush of the double-buffered completion system
(src/core/chunks_double_buf.rs:362-377): entries inside the chunk's bounding
box are applied to the generated grid (via `rem_euclid` local coordinates)
and dropped; the rest are kept in order. -/
def flushRetain {T : Type} (bl : Point) (d : Nat) (wq : List (Point × T))
    (grid : FlatGrid T) : FlatGrid T × List (Point × T) :=
  wq.foldl (fun acc pv =>
    if inChunkBox bl d pv.1 then
      ((acc.1.set_item (localCoordE pv.1.x d) (localCoordE pv.1.y d) pv.2).2,
       acc.2)
    else (acc.1, acc.2 ++ [pv])) (grid, [])

/-- One completed chunk's step of the double-buffered
`data_map_process_completed_tasks_system`
(src/core/chunks_double_buf.rs:355-384): flush-and-retain the write queue,
insert the patched chunk into the write buffer, drop the pending entry. -/
def applyCompletedChunkDb {T : Type} (coords : ChunkCoords) (chunk : DataChunk T)
    (m : DataMapDoubleBuffered T) : DataMapDoubleBuffered T :=
  let chunk_bottom_left_tile :=
    coords.to_bottom_left_tile_point m.chunk_dimension_tiles
  let fr := flushRetain chunk_bottom_left_tile m.chunk_dimension_tiles
    m.write_queue chunk.grid
  { m with
      write_queue := fr.2
      write_buffer := mapInsert coords ⟨fr.1⟩ m.write_buffer
      pending_tasks := m.pending_tasks.filter fun c => c ≠ coords }

/-- The double-buffered `data_map_process_completed_tasks_system`
(src/core/chunks_double_buf.rs:350-386), parametrized by the finished jobs
the non-blocking poll found; each is processed in turn inside the query loop. -/
def data_map_db_process_completed_tasks_system {T : Type}
    (completed : List (ChunkCoords × DataChunk T)) (m : DataMapDoubleBuffered T) :
    DataMapDoubleBuffered T :=
  completed.foldl (fun acc cc => applyCompletedChunkDb cc.1 cc.2 acc) m

/-- The light simulator's `Direction`
(src/game/render/light_sim/directions.rs:1-12). -/
inductive Direction where
  | N
  | NE
  | E
  | SE
  | S
  | SW
  | W
  | NW
deriving DecidableEq

/-- `Direction::is_orthogonal` (src/game/render/light_sim/directions.rs:37-39). -/
def Direction.is_orthogonal : Direction → Bool
  | .N | .E | .S | .W => true
  | _ => false

/-- `Direction::is_diagonal` (src/game/render/light_sim/directions.rs:52-54). -/
def Direction.is_diagonal : Direction → Bool
  | .NE | .SE | .SW | .NW => true
  | _ => false

/-- `Direction::get_next_from` (src/game/render/light_sim/directions.rs:81-120):
the one or two neighbor cells energy is directed to (an orthogonal direction
repeats its single neighbor, a diagonal yields its two orthogonal component
neighbors).  Rust's `usize::saturating_sub(1)` is `Nat` subtraction. -/
def Direction.get_next_from : Direction → Nat → Nat → List (Nat × Nat)
  | .N, x, y => [(x, y - 1), (x, y - 1)]
  | .S, x, y => [(x, y + 1), (x, y + 1)]
  | .E, x, y => [(x + 1, y), (x + 1, y)]
  | .W, x, y => [(x - 1, y), (x - 1, y)]
  | .NE, x, y => [(x, y - 1), (x + 1, y)]
  | .SE, x, y => [(x, y + 1), (x + 1, y)]
  | .SW, x, y => [(x, y + 1), (x - 1, y)]
  | .NW, x, y => [(x, y - 1), (x - 1, y)]

/-- `Direction::get_direct_next_point`
(src/game/render/light_sim/directions.rs:138-149). -/
def Direction.get_direct_next_point : Direction → Nat → Nat → Nat × Nat
  | .N, x, y => (x, y - 1)
  | .NE, x, y => (x + 1, y - 1)
  | .E, x, y => (x + 1, y)
  | .SE, x, y => (x + 1, y + 1)
  | .S, x, y => (x, y + 1)
  | .SW, x, y => (x - 1, y + 1)
  | .W, x, y => (x - 1, y)
  | .NW, x, y => (x - 1, y - 1)

/-- `Direction::orthogonal_components`
(src/game/render/light_sim/directions.rs:164-175). -/
def Direction.orthogonal_components :
    Direction → Option Direction × Option Direction
  | .N => (some .N, none)
  | .E => (some .E, none)
  | .S => (some .S, none)
  | .W => (some .W, none)
  | .NE => (some .N, some .E)
  | .SE => (some .S, some .E)
  | .SW => (some .S, some .W)
  | .NW => (some .N, some .W)

/-- Whether the direction has a west component (its neighbor computation
subtracts from `x`). -/
def Direction.hasWestComponent : Direction → Bool
  | .W | .SW | .NW => true
  | _ => false

/-- Whether the direction has a north component (its neighbor computation
subtracts from `y`; north is decreasing `y` in this code's convention). -/
def Direction.hasNorthComponent : Direction → Bool
  | .N | .NE | .NW => true
  | _ => false

/-- Modelled from the spec: the true one-step neighbor of a cell in an
orthogonal direction, over unbounded integer coordinates (the code's
convention: north decreases `y`, south increases `y`, east increases `x`,
west decreases `x`). -/
def componentShiftZ : Direction → Int × Int → Int × Int
  | .N, (x, y) => (x, y - 1)
  | .E, (x, y) => (x + 1, y)
  | .S, (x, y) => (x, y + 1)
  | .W, (x, y) => (x - 1, y)
  | _, (x, y) => (x, y)

/-- Modelled from the spec: the list of true one-step neighbor cells energy
must be directed to from `(x, y)` for a direction — the single orthogonal
neighbor repeated for an orthogonal direction, the two orthogonal component
neighbors for a diagonal one — over unbounded integer coordinates, so that
falling outside a window is representable rather than clamped. -/
def trueNeighbors (dir : Direction) (x y : Int) : List (Int × Int) :=
  match dir.orthogonal_components with
  | (some a, none) => [componentShiftZ a (x, y), componentShiftZ a (x, y)]
  | (some a, some b) => [componentShiftZ a (x, y), componentShiftZ b (x, y)]
  | _ => []

/-- One invocation of a public `DataMap` operation or of a per-tick system
pass, the alphabet of the map's reachable-state transition system.  Loader
ops carry the focus chunk coordinates computed from the tracked transforms;
the merge op carries the finished generation jobs found by the poll. -/
inductive SysOp (T : Type) where
  | opGet (p : Point)
  | opGetOption (p : Point)
  | opWrite (p : Point) (v : T)
  | opInit (manhattan_distance_tiles : Nat)
  | opLoader (focuses : List ChunkCoords)
  | opLoaderPlayer (focuses : List ChunkCoords)
  | opSpawn
  | opMerge (completed : List (ChunkCoords × DataChunk T))

/-- Effect of one operation on the map state. -/
def applyOp {T : Type} : SysOp T → DataMap T → DataMap T
  | .opGet p, m => (m.get p).2
  | .opGetOption p, m => (m.get_option p).2
  | .opWrite p v, m => m.write p v
  | .opInit t, m => m.init t
  | .opLoader fs, m => data_map_load_unload_system fs m
  | .opLoaderPlayer fs, m => data_map_load_unload_system_for_player fs m
  | .opSpawn, m => (data_map_spawn_tasks_system m).1
  | .opMerge comp, m => data_map_process_completed_tasks_system comp m

/-- Environment well-formedness of one operation: a completed generation job
exists only for a coordinate with a pending task (spawn creates the task
entity and the `pending_tasks` entry together, and the merge pass removes
both together, so the poll can only find jobs of pending coordinates). -/
def OpOk {T : Type} (m : DataMap T) : SysOp T → Prop
  | .opMerge comp => ∀ cc ∈ comp, cc.1 ∈ m.pending_tasks
  | _ => True

/-- Run a sequence of operations left to right. -/
def runOps {T : Type} (ops : List (SysOp T)) (m : DataMap T) : DataMap T :=
  ops.foldl (fun acc op => applyOp op acc) m

/-- Every operation of the sequence is environment-well-formed in the state
it executes in. -/
def OpsOk {T : Type} : List (SysOp T) → DataMap T → Prop
  | [], _ => True
  | op :: rest, m => OpOk m op ∧ OpsOk rest (applyOp op m)

/-- Whether the operation is a per-tick pass (loader, init, spawn, merge)
rather than a point access (`get` / `get_option` / `write`). -/
def IsPassOp {T : Type} : SysOp T → Prop
  | .opGet _ => False
  | .opGetOption _ => False
  | .opWrite _ _ => False
  | _ => True

/-- Mutual exclusion of `requested_chunks`, `pending_tasks` and
`loaded_chunks`: no coordinate is in two of the three collections. -/
def MutuallyExclusive {T : Type} (m : DataMap T) : Prop :=
  (∀ c ∈ m.requested_chunks,
    c ∉ m.pending_tasks ∧ c ∉ mapKeys m.loaded_chunks) ∧
  (∀ c ∈ m.pending_tasks, c ∉ mapKeys m.loaded_chunks)

instance {T : Type} (m : DataMap T) : Decidable (MutuallyExclusive m) := by
  unfold MutuallyExclusive
  infer_instance

/-- One step of the claim-8 scenario: either a `get` at the fixed point or a
spawn pass. -/
inductive GetOrSpawn where
  | doGet
  | doSpawn
deriving DecidableEq

/-- Accumulated observation of a claim-8 trace: final state, the values the
`get` calls returned, and the coordinates of every generation job spawned
along the way (one element per `thread_pool.spawn` call). -/
structure TraceResult (T : Type) where
  state : DataMap T
  results : List T
  spawned : List ChunkCoords

/-- Run an arbitrary interleaving of `get point` calls and spawn passes,
collecting the returned values and the spawned job coordinates in order. -/
def runGetSpawn {T : Type} (point : Point) :
    List GetOrSpawn → DataMap T → TraceResult T
  | [], m => ⟨m, [], []⟩
  | .doGet :: rest, m =>
      let r := m.get point
      let tail := runGetSpawn point rest r.2
      ⟨tail.state, r.1 :: tail.results, tail.spawned⟩
  | .doSpawn :: rest, m =>
      let r := data_map_spawn_tasks_system m
      let tail := runGetSpawn point rest r.1
      ⟨tail.state, tail.results, r.2 ++ tail.spawned⟩

/-! Helper lemmas about the association-list embedding of `HashMap`. -/

theorem mapLookup_mapRemove_self {K V : Type} [DecidableEq K] (k : K)
    (l : List (K × V)) : mapLookup k (mapRemove k l) = none := by
  induction l with
  | nil => rfl
  | cons kv rest ih =>
      by_cases h : kv.1 = k
      · rw [mapRemove, if_pos h]
        exact ih
      · rw [mapRemove, if_neg h, mapLookup, if_neg h]
        exact ih

theorem mapLookup_mapRemove_ne {K V : Type} [DecidableEq K] {k k' : K}
    (l : List (K × V)) (h : k' ≠ k) :
    mapLookup k' (mapRemove k l) = mapLookup k' l := by
  induction l with
  | nil => rfl
  | cons kv rest ih =>
      by_cases h1 : kv.1 = k
      · rw [mapRemove, if_pos h1, mapLookup, if_neg (by rw [h1]; exact h.symm)]
        exact ih
      · rw [mapRemove, if_neg h1, mapLookup, mapLookup]
        by_cases h2 : kv.1 = k'
        · rw [if_pos h2, if_pos h2]
        · rw [if_neg h2, if_neg h2]
          exact ih

theorem mapLookup_mapInsert_self {K V : Type} [DecidableEq K] (k : K) (v : V)
    (l : List (K × V)) : mapLookup k (mapInsert k v l) = some v := by
  rw [mapInsert, mapLookup, if_pos rfl]

theorem mapLookup_mapInsert_ne {K V : Type} [DecidableEq K] {k k' : K} (v : V)
    (l : List (K × V)) (h : k' ≠ k) :
    mapLookup k' (mapInsert k v l) = mapLookup k' l := by
  rw [mapInsert, mapLookup, if_neg (h.symm)]
  exact mapLookup_mapRemove_ne l h

theorem mapLookup_eq_none_iff {K V : Type} [DecidableEq K] (k : K)
    (l : List (K × V)) : mapLookup k l = none ↔ k ∉ mapKeys l := by
  induction l with
  | nil => simp [mapLookup, mapKeys]
  | cons kv rest ih =>
      rw [mapLookup]
      by_cases h : kv.1 = k
      · simp [mapKeys, h]
      · rw [if_neg h]
        simp only [mapKeys, List.map_cons, List.mem_cons] at ih ⊢
        constructor
        · intro hnone
          intro hc
          rcases hc with hc | hc
          · exact h hc.symm
          · exact (ih.mp hnone) hc
        · intro hc
          exact ih.mpr fun hm => hc (Or.inr hm)

theorem mem_mapKeys_mapRemove {K V : Type} [DecidableEq K] {c k : K}
    (l : List (K × V)) (h : c ∈ mapKeys (mapRemove k l)) : c ∈ mapKeys l := by
  induction l with
  | nil => exact h
  | cons kv rest ih =>
      rw [mapRemove] at h
      by_cases h1 : kv.1 = k
      · rw [if_pos h1] at h
        simp only [mapKeys, List.map_cons, List.mem_cons]
        exact Or.inr (ih h)
      · rw [if_neg h1] at h
        simp only [mapKeys, List.map_cons, List.mem_cons] at h ⊢
        rcases h with h | h
        · exact Or.inl h
        · exact Or.inr (ih h)

theorem mem_mapKeys_mapInsert {K V : Type} [DecidableEq K] {c k : K} (v : V)
    (l : List (K × V)) (h : c ∈ mapKeys (mapInsert k v l)) :
    c = k ∨ c ∈ mapKeys l := by
  simp only [mapInsert, mapKeys, List.map_cons, List.mem_cons] at h
  rcases h with h | h
  · exact Or.inl h
  · exact Or.inr (mem_mapKeys_mapRemove l h)

theorem mem_mapKeys_filter {K V : Type} {c : K} {q : K × V → Bool}
    (l : List (K × V)) (h : c ∈ mapKeys (l.filter q)) : c ∈ mapKeys l := by
  simp only [mapKeys, List.mem_map] at h ⊢
  obtain ⟨kv, hkv, hc⟩ := h
  exact ⟨kv, List.mem_of_mem_filter hkv, hc⟩

/-! Helper lemmas about the local-coordinate computations. -/

theorem neg_lt_tmod (v : Int) (d : Nat) (h : 0 < d) :
    -(d : Int) < Int.tmod v d := by
  cases v with
  | ofNat m =>
      have h2 : (0 : Int) ≤ Int.ofNat m := Int.ofNat_nonneg m
      have := Int.tmod_nonneg (d : Int) h2
      omega
  | negSucc m =>
      have h1 : Int.tmod (Int.negSucc m) (d : Int) = -(((m + 1) % d : Nat) : Int) :=
        rfl
      have h2 : (m + 1) % d < d := Nat.mod_lt _ h
      omega

theorem tmod_chain_eq_emod (v : Int) (d : Nat) (h : 0 < d) :
    (Int.tmod v d + d).tmod d = v % (d : Int) := by
  have h1 : -(d : Int) < Int.tmod v d := neg_lt_tmod v d h
  have h0 : (0 : Int) ≤ Int.tmod v d + d := by omega
  rw [Int.tmod_eq_emod h0 (by omega)]
  have h3 := Int.add_mul_emod_self_left (Int.tmod v d) (d : Int) 1
  simp only [mul_one] at h3
  rw [h3, Int.tmod_def]
  have h4 : v - (d : Int) * v.tdiv d = v + (d : Int) * (-(v.tdiv d)) := by ring
  rw [h4, Int.add_mul_emod_self_left]

theorem localCoord_cast (v : Int) (d : Nat) (h : 0 < d) :
    (localCoord v d : Int) = v % (d : Int) := by
  unfold localCoord
  rw [tmod_chain_eq_emod v d h]
  have := Int.emod_nonneg v (show (d : Int) ≠ 0 by omega)
  omega

theorem localCoordE_cast (v : Int) (d : Nat) (h : 0 < d) :
    (localCoordE v d : Int) = v % (d : Int) := by
  unfold localCoordE
  have := Int.emod_nonneg v (show (d : Int) ≠ 0 by omega)
  omega

theorem localCoord_lt (v : Int) (d : Nat) (h : 0 < d) : localCoord v d < d := by
  have h1 := localCoord_cast v d h
  have h2 := Int.emod_lt_of_pos v (show (0 : Int) < d by exact_mod_cast h)
  omega

theorem localCoordE_lt (v : Int) (d : Nat) (h : 0 < d) : localCoordE v d < d := by
  have h1 := localCoordE_cast v d h
  have h2 := Int.emod_lt_of_pos v (show (0 : Int) < d by exact_mod_cast h)
  omega

theorem localCoord_eq_localCoordE (v : Int) (d : Nat) (h : 0 < d) :
    localCoord v d = localCoordE v d := by
  have h1 := localCoord_cast v d h
  have h2 := localCoordE_cast v d h
  omega

/-- Integers in one half-open window of width `d` with equal residues mod `d`
are equal. -/
theorem eq_of_emod_eq_of_inWindow {a b bl : Int} {d : Nat}
    (h : a % (d : Int) = b % (d : Int)) (h1 : bl ≤ a) (h2 : a < bl + d)
    (h3 : bl ≤ b) (h4 : b < bl + d) : a = b := by
  have h5 : (a - b) % (d : Int) = 0 := by
    rw [Int.sub_emod, h, Int.sub_self, Int.zero_emod]
  have h6 : (d : Int) ∣ (a - b) := Int.dvd_of_emod_eq_zero h5
  have h7 : a - b = 0 := Int.eq_zero_of_abs_lt_dvd h6 (by rw [abs_lt]; omega)
  omega

/-- Two points inside one chunk's tile bounding box with equal local
coordinates are equal. -/
theorem inChunkBox_localCoord_inj {bl : Point} {d : Nat} {p q : Point}
    (h : 0 < d) (hp : inChunkBox bl d p = true) (hq : inChunkBox bl d q = true)
    (hx : localCoord p.x d = localCoord q.x d)
    (hy : localCoord p.y d = localCoord q.y d) : p = q := by
  simp only [inChunkBox, Bool.and_eq_true, decide_eq_true_eq] at hp hq
  have hx1 := localCoord_cast p.x d h
  have hx2 := localCoord_cast q.x d h
  have hy1 := localCoord_cast p.y d h
  have hy2 := localCoord_cast q.y d h
  have hex : p.x % (d : Int) = q.x % (d : Int) := by omega
  have hey : p.y % (d : Int) = q.y % (d : Int) := by omega
  obtain ⟨⟨⟨hp1, hp2⟩, hp3⟩, hp4⟩ := hp
  obtain ⟨⟨⟨hq1, hq2⟩, hq3⟩, hq4⟩ := hq
  have ex : p.x = q.x := eq_of_emod_eq_of_inWindow hex hp1 hp2 hq1 hq2
  have ey : p.y = q.y := eq_of_emod_eq_of_inWindow hey hp3 hp4 hq3 hq4
  cases p
  cases q
  simp_all

/-! Helper lemmas about `FlatGrid`. -/

/-- The row-major index of an in-bounds cell is inside the backing store. -/
theorem rowMajorIndex_lt {x y d : Nat} (hx : x < d) (hy : y < d) :
    y * d + x < d * d := by
  have h1 : y * d + x < y * d + d := by omega
  have h2 : y * d + d = (y + 1) * d := by ring
  have h3 : (y + 1) * d ≤ d * d := Nat.mul_le_mul_right d (by omega)
  omega

/-- Row-major indexing is injective on in-bounds cells. -/
theorem rowMajorIndex_inj {x y x' y' d : Nat} (hx : x < d) (hx' : x' < d)
    (h : y * d + x = y' * d + x') : x = x' ∧ y = y' := by
  have hd : 0 < d := by omega
  have h1 : (y * d + x) % d = x := by
    rw [Nat.mul_comm y d, Nat.mul_add_mod, Nat.mod_eq_of_lt hx]
  have h2 : (y' * d + x') % d = x' := by
    rw [Nat.mul_comm y' d, Nat.mul_add_mod, Nat.mod_eq_of_lt hx']
  have h3 : (y * d + x) / d = y := by
    rw [Nat.mul_comm y d, Nat.mul_add_div hd, Nat.div_eq_of_lt hx]
    omega
  have h4 : (y' * d + x') / d = y' := by
    rw [Nat.mul_comm y' d, Nat.mul_add_div hd, Nat.div_eq_of_lt hx']
    omega
  constructor
  · rw [← h1, ← h2, h]
  · rw [← h3, ← h4, h]

/-- In-bounds `get_item` returns the backing-store cell. -/
theorem FlatGrid.get_item_eq {T : Type} (g : FlatGrid T) {x y : Nat}
    (hx : x < g.dimension) (hy : y < g.dimension) :
    g.get_item x y = g.data[y * g.dimension + x]? := by
  simp [FlatGrid.get_item, FlatGrid.calculate_index, hx, hy]

/-- In-bounds `get_item` is `some`. -/
theorem FlatGrid.get_item_isSome {T : Type} (g : FlatGrid T) {x y : Nat}
    (hx : x < g.dimension) (hy : y < g.dimension) :
    (g.get_item x y).isSome := by
  rw [FlatGrid.get_item_eq g hx hy]
  have h : y * g.dimension + x < g.data.length := by
    rw [g.wf]; exact rowMajorIndex_lt hx hy
  rw [List.getElem?_eq_getElem h]
  rfl

/-- Out-of-bounds `get_item` is `none`. -/
theorem FlatGrid.get_item_oob {T : Type} (g : FlatGrid T) {x y : Nat}
    (h : ¬(x < g.dimension ∧ y < g.dimension)) : g.get_item x y = none := by
  simp [FlatGrid.get_item, FlatGrid.calculate_index, h]

/-- Out-of-bounds `set_item` reports `false` and returns the grid unchanged. -/
theorem FlatGrid.set_item_oob {T : Type} (g : FlatGrid T) {x y : Nat} (v : T)
    (h : ¬(x < g.dimension ∧ y < g.dimension)) :
    g.set_item x y v = (false, g) := by
  simp [FlatGrid.set_item, FlatGrid.calculate_index, h]

/-- `set_item` preserves the grid dimension. -/
theorem FlatGrid.set_item_dimension {T : Type} (g : FlatGrid T) (x y : Nat)
    (v : T) : ((g.set_item x y v).2).dimension = g.dimension := by
  unfold FlatGrid.set_item
  cases h : g.calculate_index x y <;> simp

/-- Reading the cell just written by an in-bounds `set_item`. -/
theorem FlatGrid.get_item_set_item_self {T : Type} (g : FlatGrid T) {x y : Nat}
    (v : T) (hx : x < g.dimension) (hy : y < g.dimension) :
    ((g.set_item x y v).2).get_item x y = some v := by
  have hidx : g.calculate_index x y = some (y * g.dimension + x) := by
    simp [FlatGrid.calculate_index, hx, hy]
  have hlen : y * g.dimension + x < g.data.length := by
    rw [g.wf]; exact rowMajorIndex_lt hx hy
  simp only [FlatGrid.set_item, hidx]
  rw [FlatGrid.get_item_eq _ (by simpa using hx) (by simpa using hy)]
  exact List.getElem?_set_self hlen

/-- `set_item` does not change any other cell. -/
theorem FlatGrid.get_item_set_item_ne {T : Type} (g : FlatGrid T) {x y x' y' : Nat}
    (v : T) (hne : ¬(x' = x ∧ y' = y)) :
    ((g.set_item x y v).2).get_item x' y' = g.get_item x' y' := by
  unfold FlatGrid.set_item
  cases hidx : g.calculate_index x y with
  | none => simp
  | some idx =>
      simp only []
      by_cases hin : x' < g.dimension ∧ y' < g.dimension
      · have hb : x < g.dimension ∧ y < g.dimension := by
          by_contra hc
          simp [FlatGrid.calculate_index, hc] at hidx
        have hidx2 : idx = y * g.dimension + x := by
          simp [FlatGrid.calculate_index, hb] at hidx
          omega
        have hgd : (⟨g.data.set idx v, g.dimension, by
            rw [List.length_set]; exact g.wf⟩ : FlatGrid T).dimension = g.dimension := rfl
        rw [FlatGrid.get_item_eq _ (by simpa using hin.1) (by simpa using hin.2),
          FlatGrid.get_item_eq g hin.1 hin.2]
        simp only []
        have hneidx : y' * g.dimension + x' ≠ idx := by
          rw [hidx2]
          intro hcontra
          rcases rowMajorIndex_inj hin.1 hb.1 hcontra with ⟨hx1, hy1⟩
          exact hne ⟨hx1, hy1⟩
        rw [List.getElem?_set_ne (by omega)]
      · rw [FlatGrid.get_item_oob _ (by simpa using hin),
          FlatGrid.get_item_oob g hin]

/-! Helper lemmas about the write-queue flush of the completion-merge passes. -/

theorem mapLookup_mem {K V : Type} [DecidableEq K] {k : K} {v : V}
    {l : List (K × V)} (h : mapLookup k l = some v) : (k, v) ∈ l := by
  induction l with
  | nil => simp [mapLookup] at h
  | cons kv rest ih =>
      rw [mapLookup] at h
      by_cases h1 : kv.1 = k
      · rw [if_pos h1] at h
        have h2 : kv = (k, v) := by
          cases kv
          simp_all
        rw [← h2]
        exact List.mem_cons_self kv rest
      · rw [if_neg h1] at h
        exact List.mem_cons_of_mem _ (ih h)

theorem mapLookup_mapRemove_none {K V : Type} [DecidableEq K] {k k' : K}
    {l : List (K × V)} (h : mapLookup k l = none) :
    mapLookup k (mapRemove k' l) = none := by
  by_cases h1 : k = k'
  · rw [h1]
    exact mapLookup_mapRemove_self k' l
  · rw [mapLookup_mapRemove_ne l h1]
    exact h

theorem mapLookup_foldl_mapRemove_none {K V : Type} [DecidableEq K] {k : K}
    (pts : List K) (l : List (K × V)) (h : mapLookup k l = none) :
    mapLookup k (pts.foldl (fun q pt => mapRemove pt q) l) = none := by
  induction pts generalizing l with
  | nil => exact h
  | cons pt rest ih => exact ih _ (mapLookup_mapRemove_none h)

theorem mapLookup_foldl_mapRemove_mem {K V : Type} [DecidableEq K] {k : K}
    {pts : List K} (l : List (K × V)) (h : k ∈ pts) :
    mapLookup k (pts.foldl (fun q pt => mapRemove pt q) l) = none := by
  induction pts generalizing l with
  | nil => simp at h
  | cons pt rest ih =>
      rcases List.mem_cons.mp h with h1 | h1
      · rw [List.foldl_cons]
        by_cases h2 : k ∈ rest
        · exact ih _ h2
        · apply mapLookup_foldl_mapRemove_none
          rw [← h1]
          exact mapLookup_mapRemove_self k l
      · exact ih _ h1

theorem mapLookup_filter_none {K V : Type} [DecidableEq K] {k : K}
    {q : K × V → Bool} (l : List (K × V)) (hq : ∀ v : V, q (k, v) = false) :
    mapLookup k (l.filter q) = none := by
  induction l with
  | nil => rfl
  | cons kv rest ih =>
      rw [List.filter_cons]
      by_cases h1 : q kv = true
      · rw [if_pos h1, mapLookup]
        have h2 : kv.1 ≠ k := by
          intro hc
          have : q (k, kv.2) = q kv := by rw [← hc]
          rw [hq kv.2] at this
          rw [← this] at h1
          simp at h1
        rw [if_neg h2]
        exact ih
      · rw [if_neg h1]
        exact ih

theorem mapLookup_filter_of_none {K V : Type} [DecidableEq K] {k : K}
    {q : K × V → Bool} (l : List (K × V)) (h : mapLookup k l = none) :
    mapLookup k (l.filter q) = none := by
  rw [mapLookup_eq_none_iff] at h ⊢
  intro hc
  exact h (mem_mapKeys_filter l hc)

/-- The `points_to_remove` list collected by `flushWrites`: exactly the keys
of the write-queue entries inside the chunk's bounding box, in order. -/
theorem flushWrites_snd {T : Type} (bl : Point) (d : Nat)
    (wq : List (Point × T)) (g : FlatGrid T) :
    (flushWrites bl d wq g).2 =
      (wq.filter fun pv => inChunkBox bl d pv.1).map Prod.fst := by
  suffices h : ∀ (wq : List (Point × T)) (g : FlatGrid T) (acc : List Point),
      (wq.foldl (fun acc2 pv =>
        if inChunkBox bl d pv.1 then
          ((acc2.1.set_item (localCoord pv.1.x d) (localCoord pv.1.y d) pv.2).2,
           acc2.2 ++ [pv.1])
        else acc2) (g, acc)).2 =
        acc ++ (wq.filter fun pv => inChunkBox bl d pv.1).map Prod.fst by
    rw [flushWrites, h wq g []]
    rfl
  intro wq
  induction wq with
  | nil => intro g acc; simp
  | cons pv rest ih =>
      intro g acc
      rw [List.foldl_cons, List.filter_cons]
      by_cases h1 : inChunkBox bl d pv.1 = true
      · rw [if_pos h1, if_pos h1, ih]
        simp
      · rw [if_neg h1, if_neg (by simpa using h1)]
        exact ih g acc

/-- The kept list of `flushRetain`: exactly the write-queue entries outside
the chunk's bounding box, in order. -/
theorem flushRetain_snd {T : Type} (bl : Point) (d : Nat)
    (wq : List (Point × T)) (g : FlatGrid T) :
    (flushRetain bl d wq g).2 =
      wq.filter fun pv => !inChunkBox bl d pv.1 := by
  suffices h : ∀ (wq : List (Point × T)) (g : FlatGrid T) (acc : List (Point × T)),
      (wq.foldl (fun acc2 pv =>
        if inChunkBox bl d pv.1 then
          ((acc2.1.set_item (localCoordE pv.1.x d) (localCoordE pv.1.y d) pv.2).2,
           acc2.2)
        else (acc2.1, acc2.2 ++ [pv])) (g, acc)).2 =
        acc ++ wq.filter fun pv => !inChunkBox bl d pv.1 by
    rw [flushRetain, h wq g []]
    rfl
  intro wq
  induction wq with
  | nil => intro g acc; simp
  | cons pv rest ih =>
      intro g acc
      rw [List.foldl_cons, List.filter_cons]
      by_cases h1 : inChunkBox bl d pv.1 = true
      · rw [if_pos h1, if_neg (by simpa using h1)]
        exact ih _ acc
      · rw [if_neg h1, if_pos (by simpa using h1)]
        rw [ih]
        simp

/-- Merging one completed chunk clears every write-queue entry inside that
chunk's bounding box (single-buffered merge). -/
theorem applyCompletedChunk_clears {T : Type} (c : ChunkCoords)
    (gch : DataChunk T) (m : DataMap T) (p : Point)
    (hbox : inChunkBox (c.to_bottom_left_tile_point m.chunk_dimension_tiles)
      m.chunk_dimension_tiles p = true) :
    mapLookup p (applyCompletedChunk c gch m).write_queue = none := by
  rw [applyCompletedChunk]
  simp only []
  cases hl : mapLookup p m.write_queue with
  | none => exact mapLookup_foldl_mapRemove_none _ _ hl
  | some v =>
      apply mapLookup_foldl_mapRemove_mem
      rw [flushWrites_snd]
      have hmem : (p, v) ∈ m.write_queue := mapLookup_mem hl
      exact List.mem_map.mpr ⟨(p, v), List.mem_filter.mpr ⟨hmem, hbox⟩, rfl⟩

/-- Single-buffered merge never adds write-queue entries. -/
theorem applyCompletedChunk_none_preserved {T : Type} (c : ChunkCoords)
    (gch : DataChunk T) (m : DataMap T) (p : Point)
    (h : mapLookup p m.write_queue = none) :
    mapLookup p (applyCompletedChunk c gch m).write_queue = none := by
  rw [applyCompletedChunk]
  exact mapLookup_foldl_mapRemove_none _ _ h

/-- Merging passes do not change the chunk dimension. -/
theorem applyCompletedChunk_dim {T : Type} (c : ChunkCoords) (gch : DataChunk T)
    (m : DataMap T) :
    (applyCompletedChunk c gch m).chunk_dimension_tiles = m.chunk_dimension_tiles :=
  rfl

theorem foldl_applyCompletedChunk_dim {T : Type}
    (l : List (ChunkCoords × DataChunk T)) (m : DataMap T) :
    (l.foldl (fun acc cc => applyCompletedChunk cc.1 cc.2 acc) m).chunk_dimension_tiles
      = m.chunk_dimension_tiles := by
  induction l generalizing m with
  | nil => rfl
  | cons cc rest ih => rw [List.foldl_cons, ih, applyCompletedChunk_dim]

theorem foldl_applyCompletedChunk_none_preserved {T : Type}
    (l : List (ChunkCoords × DataChunk T)) (m : DataMap T) (p : Point)
    (h : mapLookup p m.write_queue = none) :
    mapLookup p
      (l.foldl (fun acc cc => applyCompletedChunk cc.1 cc.2 acc) m).write_queue
      = none := by
  induction l generalizing m with
  | nil => exact h
  | cons cc rest ih =>
      exact ih _ (applyCompletedChunk_none_preserved _ _ _ _ h)

/-- Double-buffered merge of one chunk clears every write-queue entry inside
that chunk's bounding box. -/
theorem applyCompletedChunkDb_clears {T : Type} (c : ChunkCoords)
    (gch : DataChunk T) (m : DataMapDoubleBuffered T) (p : Point)
    (hbox : inChunkBox (c.to_bottom_left_tile_point m.chunk_dimension_tiles)
      m.chunk_dimension_tiles p = true) :
    mapLookup p (applyCompletedChunkDb c gch m).write_queue = none := by
  rw [applyCompletedChunkDb]
  simp only []
  rw [flushRetain_snd]
  apply mapLookup_filter_none
  intro v
  simp [hbox]

/-- Double-buffered merge never adds write-queue entries. -/
theorem applyCompletedChunkDb_none_preserved {T : Type} (c : ChunkCoords)
    (gch : DataChunk T) (m : DataMapDoubleBuffered T) (p : Point)
    (h : mapLookup p m.write_queue = none) :
    mapLookup p (applyCompletedChunkDb c gch m).write_queue = none := by
  rw [applyCompletedChunkDb]
  simp only []
  rw [flushRetain_snd]
  exact mapLookup_filter_of_none _ h

theorem applyCompletedChunkDb_dim {T : Type} (c : ChunkCoords)
    (gch : DataChunk T) (m : DataMapDoubleBuffered T) :
    (applyCompletedChunkDb c gch m).chunk_dimension_tiles
      = m.chunk_dimension_tiles := rfl

theorem foldl_applyCompletedChunkDb_dim {T : Type}
    (l : List (ChunkCoords × DataChunk T)) (m : DataMapDoubleBuffered T) :
    (l.foldl (fun acc cc => applyCompletedChunkDb cc.1 cc.2 acc) m).chunk_dimension_tiles
      = m.chunk_dimension_tiles := by
  induction l generalizing m with
  | nil => rfl
  | cons cc rest ih => rw [List.foldl_cons, ih, applyCompletedChunkDb_dim]

theorem foldl_applyCompletedChunkDb_none_preserved {T : Type}
    (l : List (ChunkCoords × DataChunk T)) (m : DataMapDoubleBuffered T)
    (p : Point) (h : mapLookup p m.write_queue = none) :
    mapLookup p
      (l.foldl (fun acc cc => applyCompletedChunkDb cc.1 cc.2 acc) m).write_queue
      = none := by
  induction l generalizing m with
  | nil => exact h
  | cons cc rest ih =>
      exact ih _ (applyCompletedChunkDb_none_preserved _ _ _ _ h)

/-- The single-buffered merge fold clears the box of every chunk it merges. -/
theorem foldl_applyCompletedChunk_clears {T : Type}
    (l : List (ChunkCoords × DataChunk T)) (m : DataMap T) (c : ChunkCoords)
    (gch : DataChunk T) (p : Point) (hmem : (c, gch) ∈ l)
    (hbox : inChunkBox (c.to_bottom_left_tile_point m.chunk_dimension_tiles)
      m.chunk_dimension_tiles p = true) :
    mapLookup p
      (l.foldl (fun acc cc => applyCompletedChunk cc.1 cc.2 acc) m).write_queue
      = none := by
  obtain ⟨s, t, hst⟩ := List.append_of_mem hmem
  subst hst
  rw [List.foldl_append, List.foldl_cons]
  apply foldl_applyCompletedChunk_none_preserved
  apply applyCompletedChunk_clears
  rw [foldl_applyCompletedChunk_dim]
  exact hbox

/-- The double-buffered merge fold clears the box of every chunk it merges. -/
theorem foldl_applyCompletedChunkDb_clears {T : Type}
    (l : List (ChunkCoords × DataChunk T)) (m : DataMapDoubleBuffered T)
    (c : ChunkCoords) (gch : DataChunk T) (p : Point) (hmem : (c, gch) ∈ l)
    (hbox : inChunkBox (c.to_bottom_left_tile_point m.chunk_dimension_tiles)
      m.chunk_dimension_tiles p = true) :
    mapLookup p
      (l.foldl (fun acc cc => applyCompletedChunkDb cc.1 cc.2 acc) m).write_queue
      = none := by
  obtain ⟨s, t, hst⟩ := List.append_of_mem hmem
  subst hst
  rw [List.foldl_append, List.foldl_cons]
  apply foldl_applyCompletedChunkDb_none_preserved
  apply applyCompletedChunkDb_clears
  rw [foldl_applyCompletedChunkDb_dim]
  exact hbox

/-- C5: after the completion-merge pass processes a generated chunk at
coordinate `c`, no entry remains in `write_queue` whose point lies inside
`c`'s tile bounding box (bottom-left tile ≤ point < bottom-left tile +
dimension on both axes); this holds for the single-buffered merge pass and
for the double-buffered one. -/
theorem claim5_merge_flushes_chunk_box {T : Type}
    (m : DataMap T) (mdb : DataMapDoubleBuffered T)
    (completed completedDb : List (ChunkCoords × DataChunk T))
    (c cdb : ChunkCoords) (gch gchdb : DataChunk T) (p pdb : Point)
    (hmem : (c, gch) ∈ completed)
    (hbox : inChunkBox (c.to_bottom_left_tile_point m.chunk_dimension_tiles)
      m.chunk_dimension_tiles p = true)
    (hmemDb : (cdb, gchdb) ∈ completedDb)
    (hboxDb : inChunkBox
      (cdb.to_bottom_left_tile_point mdb.chunk_dimension_tiles)
      mdb.chunk_dimension_tiles pdb = true) :
    mapLookup p
      (data_map_process_completed_tasks_system completed m).write_queue = none ∧
    mapLookup pdb
      (data_map_db_process_completed_tasks_system completedDb mdb).write_queue
      = none := by
  constructor
  · exact foldl_applyCompletedChunk_clears completed _ c gch p hmem hbox
  · exact foldl_applyCompletedChunkDb_clears completedDb mdb cdb gchdb pdb
      hmemDb hboxDb

/-- Witness for C5 at a concrete input: one queued write at (0,0), one merged
chunk at chunk (0,0) with dimension 1, in both map variants. -/
theorem claim5_witness :
    mapLookup (⟨0, 0⟩ : Point)
      (data_map_process_completed_tasks_system
        [(⟨0, 0⟩, ⟨⟨[5], 1, by simp⟩⟩)]
        { DataMap.new Nat 0 1 0 with
            write_queue := [(⟨0, 0⟩, 9)] }).write_queue = none ∧
    mapLookup (⟨0, 0⟩ : Point)
      (data_map_db_process_completed_tasks_system
        [(⟨0, 0⟩, ⟨⟨[5], 1, by simp⟩⟩)]
        { DataMapDoubleBuffered.new Nat 0 1 0 with
            write_queue := [(⟨0, 0⟩, 9)] }).write_queue = none :=
  claim5_merge_flushes_chunk_box
    { DataMap.new Nat 0 1 0 with write_queue := [(⟨0, 0⟩, 9)] }
    { DataMapDoubleBuffered.new Nat 0 1 0 with write_queue := [(⟨0, 0⟩, 9)] }
    [(⟨0, 0⟩, ⟨⟨[5], 1, by simp⟩⟩)] [(⟨0, 0⟩, ⟨⟨[5], 1, by simp⟩⟩)]
    ⟨0, 0⟩ ⟨0, 0⟩ ⟨⟨[5], 1, by simp⟩⟩ ⟨⟨[5], 1, by simp⟩⟩ ⟨0, 0⟩ ⟨0, 0⟩
    (List.mem_singleton.mpr rfl) (by decide)
    (List.mem_singleton.mpr rfl) (by decide)

/-- C7: for every `FlatGrid` and local coordinates `(x, y)`, `get_item`
returns `some` exactly when `x < d` and `y < d`; every in-domain cell is
addressed at row-major index `y*d + x`; out of bounds, `get_item` returns
`none` rather than faulting, and `set_item` returns `false` and leaves the
grid unchanged. -/
theorem claim7_flatgrid_bounds {T : Type} (g : FlatGrid T) (x y : Nat) (v : T) :
    ((g.get_item x y).isSome ↔ x < g.dimension ∧ y < g.dimension) ∧
    (x < g.dimension → y < g.dimension →
      g.get_item x y = g.data[y * g.dimension + x]?) ∧
    (¬(x < g.dimension ∧ y < g.dimension) →
      g.get_item x y = none ∧ g.set_item x y v = (false, g)) := by
  refine ⟨⟨fun h => ?_, fun h => g.get_item_isSome h.1 h.2⟩,
    fun hx hy => g.get_item_eq hx hy,
    fun h => ⟨g.get_item_oob h, g.set_item_oob v h⟩⟩
  by_contra hc
  rw [g.get_item_oob hc] at h
  simp at h

/-- Witness for C7 at a concrete input: a 2×2 grid probed in bounds at (1,0)
and out of bounds at (2,0). -/
theorem claim7_witness :
    (((FlatGrid.new Nat 2 7).get_item 1 0).isSome ↔ 1 < 2 ∧ 0 < 2) ∧
    (1 < 2 → 0 < 2 →
      (FlatGrid.new Nat 2 7).get_item 1 0 = (FlatGrid.new Nat 2 7).data[0 * 2 + 1]?) ∧
    (¬(2 < 2 ∧ 0 < 2) →
      (FlatGrid.new Nat 2 7).get_item 2 0 = none ∧
      (FlatGrid.new Nat 2 7).set_item 2 0 3 = (false, FlatGrid.new Nat 2 7)) :=
  ⟨(claim7_flatgrid_bounds (FlatGrid.new Nat 2 7) 1 0 3).1,
   (claim7_flatgrid_bounds (FlatGrid.new Nat 2 7) 1 0 3).2.1,
   (claim7_flatgrid_bounds (FlatGrid.new Nat 2 7) 2 0 3).2.2⟩

/-- C9 counterexample: at window cell (0,5) the direction `W` computes its
neighbor with `usize::saturating_sub`, clamping `x - 1` to `0`; the computed
target is the source cell (0,5) itself — an in-window cell that is not the
true one-step neighbor (-1,5) — so energy is not dropped at the boundary as
the claim requires. -/
theorem claim9_counterexample :
    ¬(∀ q ∈ Direction.W.get_next_from 0 5,
        ((q.1 : Int), (q.2 : Int)) ∈ trueNeighbors Direction.W 0 5) ∧
    Direction.W.get_next_from 0 5 = [(0, 5), (0, 5)] := by
  decide

/-- C9 amended: for every direction and window cell (x, y) with `0 < x`
whenever the direction has a west component and `0 < y` whenever it has a
north component, `get_next_from` computes exactly the true one-step component
neighbors (the single orthogonal neighbor twice, or the two orthogonal
component neighbors of a diagonal); east/south overflow stays representable
for the caller to bounds-check, but at the saturating lower boundary the
computed neighbor is clamped onto the source cell's row or column instead. -/
theorem claim9_next_from_amended (dir : Direction) (x y : Nat)
    (hx : dir.hasWestComponent = true → 0 < x)
    (hy : dir.hasNorthComponent = true → 0 < y) :
    (dir.get_next_from x y).map (fun q => ((q.1 : Int), (q.2 : Int)))
      = trueNeighbors dir x y := by
  cases dir <;>
    simp only [Direction.hasWestComponent, Direction.hasNorthComponent,
      forall_const] at hx hy <;>
    simp [Direction.get_next_from, trueNeighbors,
      Direction.orthogonal_components, componentShiftZ] <;>
    omega

/-- Witness for C9 at a concrete input: direction NE at interior cell (3,4). -/
theorem claim9_witness :
    (Direction.NE.get_next_from 3 4).map (fun q => ((q.1 : Int), (q.2 : Int)))
      = trueNeighbors Direction.NE 3 4 :=
  claim9_next_from_amended Direction.NE 3 4 (by decide) (by decide)

/-- C1 (code bug): `ChunkCoords::from_point` computes chunk coordinates by
f32 division, and f32 rounds the tile coordinate 33554431 (2^25 - 1) to
33554432, so with dimension 16 the computed chunk x is 2097152 and
`chunk*d ≤ point < chunk*d + d` fails (2097152*16 = 33554432 > 33554431; the
exact floor is 2097151).  The claim's own small instance does hold: point
(-1,-1) maps to chunk (-1,-1) with local coordinates (15,15). -/
theorem claim1_from_point_failing_input :
    ChunkCoords.from_point ⟨33554431, 0⟩ 16 = ⟨2097152, 0⟩ ∧
    ¬((2097152 : Int) * 16 ≤ 33554431) ∧
    ChunkCoords.from_point ⟨-1, -1⟩ 16 = ⟨-1, -1⟩ ∧
    localCoord (-1) 16 = 15 := by
  refine ⟨?_, by decide, ?_, by decide⟩
  · have h : ChunkCoords.from_point ⟨33554431, 0⟩ 16 = ⟨2097152, 0⟩ := by decide
    exact h
  · decide

/-- C2 counterexample: in the double-buffered map, when the point's chunk is
absent from the write buffer a mid-tick `write` lands in `write_queue`, and
`read` consults `write_queue` before the read buffer, so the written value is
visible immediately — before any `swap_buffers` call: from the freshly
constructed map, `read (0,0)` changes from `none` to `some 5` with no swap. -/
theorem claim2_counterexample :
    (DataMapDoubleBuffered.new Nat 0 16 3).read ⟨0, 0⟩ = none ∧
    ((DataMapDoubleBuffered.new Nat 0 16 3).write ⟨0, 0⟩ 5).read ⟨0, 0⟩
      = some 5 := by
  constructor
  · rfl
  · decide

/-- C2 amended: provided the point's owning chunk is present in the write
buffer and the point has no `write_queue` entry, a mid-tick `write` is
invisible to `read` until `swap_buffers`, and after the swap `read` returns
the written value; when the chunk is absent from the write buffer the write
goes through `write_queue`, which `read` consults first, so it is visible
immediately (see the counterexample). -/
theorem claim2_double_buffer_isolation_amended {T : Type}
    (m : DataMapDoubleBuffered T) (p : Point) (v : T) (ch : DataChunk T)
    (hd : 0 < m.chunk_dimension_tiles)
    (hwb : mapLookup (ChunkCoords.from_point p m.chunk_dimension_tiles)
      m.write_buffer = some ch)
    (hdim : ch.grid.dimension = m.chunk_dimension_tiles)
    (hwq : mapLookup p m.write_queue = none) :
    (m.write p v).read p = m.read p ∧
    ((m.write p v).swap_buffers).read p = some v := by
  have hx := localCoordE_lt p.x m.chunk_dimension_tiles hd
  have hy := localCoordE_lt p.y m.chunk_dimension_tiles hd
  constructor
  · simp only [DataMapDoubleBuffered.write, hwb, DataMapDoubleBuffered.read,
      mapLookup_mapRemove_self, hwq]
  · simp only [DataMapDoubleBuffered.write, hwb,
      DataMapDoubleBuffered.swap_buffers, DataMapDoubleBuffered.read,
      mapLookup_mapRemove_self, mapLookup_mapInsert_self, Option.bind_some]
    exact ch.grid.get_item_set_item_self v (hdim ▸ hx) (hdim ▸ hy)

/-- Witness for C2 at a concrete input: dimension-1 map whose chunk (0,0) is
in both buffers holding 2; writing 5 at (0,0) leaves `read` at its old value
and yields 5 after the swap. -/
theorem claim2_witness :
    (({ DataMapDoubleBuffered.new Nat 0 1 0 with
        read_buffer := [(⟨0, 0⟩, ⟨⟨[2], 1, by simp⟩⟩)]
        write_buffer := [(⟨0, 0⟩, ⟨⟨[2], 1, by simp⟩⟩)] }).write ⟨0, 0⟩ 5).read
        ⟨0, 0⟩ =
      ({ DataMapDoubleBuffered.new Nat 0 1 0 with
        read_buffer := [(⟨0, 0⟩, ⟨⟨[2], 1, by simp⟩⟩)]
        write_buffer := [(⟨0, 0⟩, ⟨⟨[2], 1, by simp⟩⟩)] }).read ⟨0, 0⟩ ∧
    ((({ DataMapDoubleBuffered.new Nat 0 1 0 with
        read_buffer := [(⟨0, 0⟩, ⟨⟨[2], 1, by simp⟩⟩)]
        write_buffer := [(⟨0, 0⟩, ⟨⟨[2], 1, by simp⟩⟩)] }).write ⟨0, 0⟩
        5).swap_buffers).read ⟨0, 0⟩ = some 5 :=
  claim2_double_buffer_isolation_amended
    { DataMapDoubleBuffered.new Nat 0 1 0 with
        read_buffer := [(⟨0, 0⟩, ⟨⟨[2], 1, by simp⟩⟩)]
        write_buffer := [(⟨0, 0⟩, ⟨⟨[2], 1, by simp⟩⟩)] }
    ⟨0, 0⟩ 5 ⟨⟨[2], 1, by simp⟩⟩ (by decide)
    (by simp only [mapLookup]; rw [if_pos (by decide)]) rfl rfl

/-- C10: in every single-buffered map state whose loaded chunks all have the
map's grid dimension (with a positive chunk dimension), `read p` immediately
after `write p v` returns `some v`, whether or not `p`'s chunk was loaded. -/
theorem claim10_write_read_roundtrip {T : Type} (m : DataMap T) (p : Point)
    (v : T) (hd : 0 < m.chunk_dimension_tiles)
    (hdims : ∀ c ch, mapLookup c m.loaded_chunks = some ch →
      ch.grid.dimension = m.chunk_dimension_tiles) :
    (m.write p v).read p = some v := by
  have hx := localCoord_lt p.x m.chunk_dimension_tiles hd
  have hy := localCoord_lt p.y m.chunk_dimension_tiles hd
  cases hl : mapLookup (ChunkCoords.from_point p m.chunk_dimension_tiles)
      m.loaded_chunks with
  | none =>
      simp only [DataMap.write, hl, DataMap.read, mapLookup_mapInsert_self]
  | some ch =>
      have hdim := hdims _ ch hl
      simp only [DataMap.write, hl, DataMap.read, mapLookup_mapRemove_self,
        mapLookup_mapInsert_self, Option.bind_some]
      exact ch.grid.get_item_set_item_self v (hdim ▸ hx) (hdim ▸ hy)

/-- Witness for C10 at concrete inputs: one write to a loaded chunk and one
write to an unloaded point, both read back. -/
theorem claim10_witness :
    (({ DataMap.new Nat 0 1 0 with
        loaded_chunks := [(⟨0, 0⟩, ⟨⟨[2], 1, by simp⟩⟩)] }).write ⟨0, 0⟩
        5).read ⟨0, 0⟩ = some 5 ∧
    ((DataMap.new Nat 0 16 3).write ⟨7, -3⟩ 9).read ⟨7, -3⟩ = some 9 := by
  constructor
  · exact claim10_write_read_roundtrip
      { DataMap.new Nat 0 1 0 with
          loaded_chunks := [(⟨0, 0⟩, ⟨⟨[2], 1, by simp⟩⟩)] }
      ⟨0, 0⟩ 5 (by decide) (by
        intro c ch h
        rw [mapLookup] at h
        by_cases hc : (⟨0, 0⟩ : ChunkCoords) = c
        · rw [if_pos hc] at h
          cases h
          rfl
        · rw [if_neg hc] at h
          rw [mapLookup] at h
          cases h)
  · exact claim10_write_read_roundtrip (DataMap.new Nat 0 16 3) ⟨7, -3⟩ 9
      (by decide) (by
        intro c ch h
        rw [DataMap.new, mapLookup] at h
        cases h)

theorem mem_mapRemove_ne {K V : Type} [DecidableEq K] {k : K} {kv : K × V} :
    ∀ {l : List (K × V)}, kv ∈ mapRemove k l → kv.1 ≠ k := by
  intro l
  induction l with
  | nil => intro h; simp [mapRemove] at h
  | cons a rest ih =>
      intro h
      rw [mapRemove] at h
      by_cases h1 : a.1 = k
      · rw [if_pos h1] at h
        exact ih h
      · rw [if_neg h1] at h
        rcases List.mem_cons.mp h with h2 | h2
        · rw [h2]
          exact h1
        · exact ih h2

theorem mapLookup_foldl_mapRemove_notmem {K V : Type} [DecidableEq K] {k : K}
    (pts : List K) (l : List (K × V)) (h : ∀ q ∈ pts, q ≠ k) :
    mapLookup k (pts.foldl (fun q pt => mapRemove pt q) l) = mapLookup k l := by
  induction pts generalizing l with
  | nil => rfl
  | cons pt rest ih =>
      rw [List.foldl_cons, ih _ (fun q hq => h q (List.mem_cons_of_mem _ hq)),
        mapLookup_mapRemove_ne _ (h pt (List.mem_cons_self _ _)).symm]

/-- Every point collected for removal by `flushWrites` lies in the box. -/
theorem flushWrites_snd_box {T : Type} {bl : Point} {d : Nat}
    {wq : List (Point × T)} {g : FlatGrid T} {q : Point}
    (hq : q ∈ (flushWrites bl d wq g).2) : inChunkBox bl d q = true := by
  rw [flushWrites_snd] at hq
  obtain ⟨pv, hpv, hq2⟩ := List.mem_map.mp hq
  obtain ⟨_, hbox⟩ := List.mem_filter.mp hpv
  rw [← hq2]
  exact hbox

/-- Folding the flush over entries whose keys differ from `p` leaves `p`'s
cell of the grid unchanged. -/
theorem flushWrites_fold_preserves_cell {T : Type} (bl : Point) (d : Nat)
    (hd : 0 < d) (p : Point) (hbox : inChunkBox bl d p = true) :
    ∀ (rest : List (Point × T)) (g : FlatGrid T) (acc : List Point),
      (∀ q w, (q, w) ∈ rest → q ≠ p) → g.dimension = d →
      ((rest.foldl (fun acc2 pv =>
          if inChunkBox bl d pv.1 then
            ((acc2.1.set_item (localCoord pv.1.x d) (localCoord pv.1.y d)
              pv.2).2, acc2.2 ++ [pv.1])
          else acc2) (g, acc)).1).get_item (localCoord p.x d)
          (localCoord p.y d)
        = g.get_item (localCoord p.x d) (localCoord p.y d) := by
  intro rest
  induction rest with
  | nil =>
      intro g acc _ _
      rfl
  | cons qw rest ih =>
      intro g acc hq hdim
      rw [List.foldl_cons]
      by_cases h1 : inChunkBox bl d qw.1 = true
      · rw [if_pos h1]
        have hqp : qw.1 ≠ p := hq qw.1 qw.2 (List.mem_cons_self _ _)
        rw [ih _ _ (fun q w hm => hq q w (List.mem_cons_of_mem _ hm))
            (by rw [FlatGrid.set_item_dimension]; exact hdim)]
        apply FlatGrid.get_item_set_item_ne
        rintro ⟨hxx, hyy⟩
        exact hqp (inChunkBox_localCoord_inj hd h1 hbox hxx.symm hyy.symm)
      · rw [if_neg h1]
        exact ih _ _ (fun q w hm => hq q w (List.mem_cons_of_mem _ hm)) hdim

/-- Flushing a write queue headed by the entry for `p` (with no other entry
at `p`) writes exactly that value into `p`'s cell of the generated grid. -/
theorem flushWrites_get_written {T : Type} (bl : Point) (d : Nat) (hd : 0 < d)
    (p : Point) (v : T) (rest : List (Point × T))
    (hbox : inChunkBox bl d p = true)
    (hrest : ∀ q w, (q, w) ∈ rest → q ≠ p)
    (g : FlatGrid T) (hdim : g.dimension = d) :
    (flushWrites bl d ((p, v) :: rest) g).1.get_item (localCoord p.x d)
      (localCoord p.y d) = some v := by
  rw [flushWrites, List.foldl_cons, if_pos hbox,
    flushWrites_fold_preserves_cell bl d hd p hbox rest _ _ hrest
      (by rw [FlatGrid.set_item_dimension]; exact hdim)]
  exact g.get_item_set_item_self v (hdim ▸ localCoord_lt p.x d hd)
    (hdim ▸ localCoord_lt p.y d hd)

/-- Projection of the merged state's write queue. -/
theorem applyCompletedChunk_write_queue {T : Type} (c : ChunkCoords)
    (gch : DataChunk T) (m : DataMap T) :
    (applyCompletedChunk c gch m).write_queue =
      (flushWrites (c.to_bottom_left_tile_point m.chunk_dimension_tiles)
        m.chunk_dimension_tiles m.write_queue gch.grid).2.foldl
        (fun q pt => mapRemove pt q) m.write_queue := rfl

/-- Projection of the merged state's loaded chunks. -/
theorem applyCompletedChunk_loaded_chunks {T : Type} (c : ChunkCoords)
    (gch : DataChunk T) (m : DataMap T) :
    (applyCompletedChunk c gch m).loaded_chunks =
      mapInsert c
        ⟨(flushWrites (c.to_bottom_left_tile_point m.chunk_dimension_tiles)
          m.chunk_dimension_tiles m.write_queue gch.grid).1⟩
        m.loaded_chunks := rfl

/-- After merging the generated chunk of `p`'s own coordinate into a state
whose write queue is headed by `p`'s entry (and has no other entry at `p`),
both `read` and `get` at `p` yield the queued value: either the entry was
flushed into the chunk's cell (when `p` lies in the computed chunk's box) or
it is still in the write queue, which both operations consult first. -/
theorem applyCompletedChunk_reads_queued {T : Type} (m : DataMap T) (p : Point)
    (v : T) (gch : DataChunk T) (rest : List (Point × T))
    (hd : 0 < m.chunk_dimension_tiles)
    (hwq : m.write_queue = (p, v) :: rest)
    (hrest : ∀ q w, (q, w) ∈ rest → q ≠ p)
    (hgdim : gch.grid.dimension = m.chunk_dimension_tiles) :
    (applyCompletedChunk (ChunkCoords.from_point p m.chunk_dimension_tiles)
      gch m).read p = some v ∧
    ((applyCompletedChunk (ChunkCoords.from_point p m.chunk_dimension_tiles)
      gch m).get p).1 = v := by
  by_cases hbox : inChunkBox
      ((ChunkCoords.from_point p m.chunk_dimension_tiles).to_bottom_left_tile_point
        m.chunk_dimension_tiles) m.chunk_dimension_tiles p = true
  · have hwqnone : mapLookup p
        (applyCompletedChunk (ChunkCoords.from_point p m.chunk_dimension_tiles)
          gch m).write_queue = none := by
      apply applyCompletedChunk_clears
      exact hbox
    have hcell : (flushWrites
        ((ChunkCoords.from_point p m.chunk_dimension_tiles).to_bottom_left_tile_point
          m.chunk_dimension_tiles) m.chunk_dimension_tiles m.write_queue
        gch.grid).1.get_item (localCoord p.x m.chunk_dimension_tiles)
        (localCoord p.y m.chunk_dimension_tiles) = some v := by
      rw [hwq]
      exact flushWrites_get_written _ _ hd p v rest hbox hrest gch.grid hgdim
    constructor
    · simp only [DataMap.read, hwqnone, applyCompletedChunk_dim,
        applyCompletedChunk_loaded_chunks, mapLookup_mapInsert_self,
        Option.bind_some]
      exact hcell
    · simp only [DataMap.get, hwqnone, applyCompletedChunk_dim,
        applyCompletedChunk_loaded_chunks, mapLookup_mapInsert_self]
      rw [hcell]
      rfl
  · have hwqsome : mapLookup p
        (applyCompletedChunk (ChunkCoords.from_point p m.chunk_dimension_tiles)
          gch m).write_queue = some v := by
      rw [applyCompletedChunk_write_queue,
        mapLookup_foldl_mapRemove_notmem _ _
          (fun q hq hqp => hbox (by
            have hb := flushWrites_snd_box hq
            rw [hqp] at hb
            exact hb)),
        hwq, mapLookup, if_pos rfl]
    constructor
    · simp only [DataMap.read, hwqsome]
    · simp only [DataMap.get, hwqsome]

/-- C4: for a point `p` whose owning chunk is not loaded, `write p v`
followed by the completion-merge of that chunk's generation task yields
`some v` at `p` via `read` and `v` via `get` — not the value the producer
generated for that cell — assuming the producer's grid dimension equals the
map's (positive) chunk dimension. -/
theorem claim4_write_before_generation {T : Type} (m : DataMap T) (p : Point)
    (v : T) (gch : DataChunk T) (hd : 0 < m.chunk_dimension_tiles)
    (hnl : mapLookup (ChunkCoords.from_point p m.chunk_dimension_tiles)
      m.loaded_chunks = none)
    (hgdim : gch.grid.dimension = m.chunk_dimension_tiles) :
    (data_map_process_completed_tasks_system
      [(ChunkCoords.from_point p m.chunk_dimension_tiles, gch)]
      (m.write p v)).read p = some v ∧
    ((data_map_process_completed_tasks_system
      [(ChunkCoords.from_point p m.chunk_dimension_tiles, gch)]
      (m.write p v)).get p).1 = v := by
  have hw : m.write p v =
      { m with
          write_queue := mapInsert p v m.write_queue
          requested_chunks := setInsert
            (ChunkCoords.from_point p m.chunk_dimension_tiles)
            m.requested_chunks } := by
    simp only [DataMap.write, hnl]
  rw [data_map_process_completed_tasks_system]
  simp only [List.foldl_cons, List.foldl_nil]
  rw [hw]
  exact applyCompletedChunk_reads_queued _ p v gch (mapRemove p m.write_queue)
    hd rfl (fun q w hm => mem_mapRemove_ne hm) hgdim

/-- Witness for C4 at a concrete input: write 7 at (0,0) into the empty
dimension-1 map, then merge a generated chunk holding 5 there; both `read`
and `get` yield the written 7, not the generated 5. -/
theorem claim4_witness :
    (data_map_process_completed_tasks_system
      [(ChunkCoords.from_point ⟨0, 0⟩ 1, ⟨⟨[5], 1, by simp⟩⟩)]
      ((DataMap.new Nat 0 1 0).write ⟨0, 0⟩ 7)).read ⟨0, 0⟩ = some 7 ∧
    ((data_map_process_completed_tasks_system
      [(ChunkCoords.from_point ⟨0, 0⟩ 1, ⟨⟨[5], 1, by simp⟩⟩)]
      ((DataMap.new Nat 0 1 0).write ⟨0, 0⟩ 7)).get ⟨0, 0⟩).1 = 7 :=
  claim4_write_before_generation (DataMap.new Nat 0 1 0) ⟨0, 0⟩ 7
    ⟨⟨[5], 1, by simp⟩⟩ (by decide) rfl rfl

/-! Helper lemmas about the spawn pass. -/

theorem foldl_collect_eq_filter {α : Type} [DecidableEq α] (pend : List α) :
    ∀ (l : List α) (acc : List α),
      l.foldl (fun acc c => if c ∈ pend then acc else acc ++ [c]) acc
        = acc ++ l.filter (fun c => c ∉ pend) := by
  intro l
  induction l with
  | nil => intro acc; simp
  | cons c rest ih =>
      intro acc
      rw [List.foldl_cons, List.filter_cons]
      by_cases h : c ∈ pend
      · rw [if_pos h, if_neg (by simp [h]), ih]
      · rw [if_neg h, if_pos (by simp [h]), ih]
        simp

theorem foldl_append_singleton {α : Type} :
    ∀ (l acc : List α), l.foldl (fun pd c => pd ++ [c]) acc = acc ++ l := by
  intro l
  induction l with
  | nil => intro acc; simp
  | cons c rest ih =>
      intro acc
      rw [List.foldl_cons, ih]
      simp

/-- The jobs spawned by one spawn pass: the requested coords not pending. -/
theorem spawn_spawned_eq {T : Type} (m : DataMap T) :
    (data_map_spawn_tasks_system m).2
      = m.requested_chunks.filter (fun c => c ∉ m.pending_tasks) := by
  show m.requested_chunks.foldl
    (fun acc coords => if coords ∈ m.pending_tasks then acc else acc ++ [coords]) []
      = _
  rw [foldl_collect_eq_filter]
  simp

/-- The pending set after one spawn pass. -/
theorem spawn_pending_eq {T : Type} (m : DataMap T) :
    (data_map_spawn_tasks_system m).1.pending_tasks
      = m.pending_tasks ++ m.requested_chunks.filter (fun c => c ∉ m.pending_tasks) := by
  show (m.requested_chunks.foldl
      (fun acc coords => if coords ∈ m.pending_tasks then acc else acc ++ [coords])
      []).foldl (fun pd c => pd ++ [c]) m.pending_tasks = _
  rw [foldl_append_singleton, foldl_collect_eq_filter]
  simp

/-- The requested set is cleared by the spawn pass. -/
theorem spawn_requested_eq {T : Type} (m : DataMap T) :
    (data_map_spawn_tasks_system m).1.requested_chunks = [] := rfl

/-- C6: the spawn pass spawns exactly one generation job for each requested
coordinate not already pending and never spawns one for a coordinate with a
job in flight; afterwards `requested_chunks` is empty, every previously
requested coordinate is in `pending_tasks`, and `pending_tasks` holds at most
one entry per coordinate. -/
theorem claim6_spawn_pass {T : Type} (m : DataMap T)
    (hreq : m.requested_chunks.Nodup) (hpend : m.pending_tasks.Nodup) :
    (∀ c ∈ m.requested_chunks, c ∉ m.pending_tasks →
      (data_map_spawn_tasks_system m).2.count c = 1) ∧
    (∀ c ∈ (data_map_spawn_tasks_system m).2, c ∉ m.pending_tasks) ∧
    (data_map_spawn_tasks_system m).1.requested_chunks = [] ∧
    (∀ c ∈ m.requested_chunks,
      c ∈ (data_map_spawn_tasks_system m).1.pending_tasks) ∧
    (data_map_spawn_tasks_system m).1.pending_tasks.Nodup := by
  refine ⟨?_, ?_, spawn_requested_eq m, ?_, ?_⟩
  · intro c hc hcp
    rw [spawn_spawned_eq]
    exact List.count_eq_one_of_mem (hreq.filter _)
      (List.mem_filter.mpr ⟨hc, by simpa using hcp⟩)
  · intro c hc
    rw [spawn_spawned_eq] at hc
    have := (List.mem_filter.mp hc).2
    simpa using this
  · intro c hc
    rw [spawn_pending_eq, List.mem_append]
    by_cases h : c ∈ m.pending_tasks
    · exact Or.inl h
    · exact Or.inr (List.mem_filter.mpr ⟨hc, by simpa using h⟩)
  · rw [spawn_pending_eq]
    refine hpend.append (hreq.filter _) ?_
    intro a ha hafil
    have := (List.mem_filter.mp hafil).2
    simp at this
    exact this ha

/-- Witness for C6 at a concrete input: requested = [(0,0), (1,0)] with (1,0)
already pending; the pass spawns exactly the job for (0,0). -/
theorem claim6_witness :
    (∀ c ∈ ({ DataMap.new Nat 0 16 3 with
        requested_chunks := [⟨0, 0⟩, ⟨1, 0⟩]
        pending_tasks := [⟨1, 0⟩] } : DataMap Nat).requested_chunks,
      c ∉ ({ DataMap.new Nat 0 16 3 with
        requested_chunks := [⟨0, 0⟩, ⟨1, 0⟩]
        pending_tasks := [⟨1, 0⟩] } : DataMap Nat).pending_tasks →
      (data_map_spawn_tasks_system
        { DataMap.new Nat 0 16 3 with
            requested_chunks := [⟨0, 0⟩, ⟨1, 0⟩]
            pending_tasks := [⟨1, 0⟩] }).2.count c = 1) ∧
    (∀ c ∈ (data_map_spawn_tasks_system
        { DataMap.new Nat 0 16 3 with
            requested_chunks := [⟨0, 0⟩, ⟨1, 0⟩]
            pending_tasks := [⟨1, 0⟩] }).2,
      c ∉ ({ DataMap.new Nat 0 16 3 with
        requested_chunks := [⟨0, 0⟩, ⟨1, 0⟩]
        pending_tasks := [⟨1, 0⟩] } : DataMap Nat).pending_tasks) ∧
    (data_map_spawn_tasks_system
      { DataMap.new Nat 0 16 3 with
          requested_chunks := [⟨0, 0⟩, ⟨1, 0⟩]
          pending_tasks := [⟨1, 0⟩] }).1.requested_chunks = [] ∧
    (∀ c ∈ ({ DataMap.new Nat 0 16 3 with
        requested_chunks := [⟨0, 0⟩, ⟨1, 0⟩]
        pending_tasks := [⟨1, 0⟩] } : DataMap Nat).requested_chunks,
      c ∈ (data_map_spawn_tasks_system
        { DataMap.new Nat 0 16 3 with
            requested_chunks := [⟨0, 0⟩, ⟨1, 0⟩]
            pending_tasks := [⟨1, 0⟩] }).1.pending_tasks) ∧
    (data_map_spawn_tasks_system
      { DataMap.new Nat 0 16 3 with
          requested_chunks := [⟨0, 0⟩, ⟨1, 0⟩]
          pending_tasks := [⟨1, 0⟩] }).1.pending_tasks.Nodup :=
  claim6_spawn_pass
    { DataMap.new Nat 0 16 3 with
        requested_chunks := [⟨0, 0⟩, ⟨1, 0⟩]
        pending_tasks := [⟨1, 0⟩] }
    (by decide) (by decide)

/-! Helper lemmas for the repeated get-miss trace (claim 8). -/

theorem setInsert_nodup {K : Type} [DecidableEq K] (k : K) {l : List K}
    (h : l.Nodup) : (setInsert k l).Nodup := by
  rw [setInsert]
  by_cases h1 : k ∈ l
  · rw [if_pos h1]
    exact h
  · rw [if_neg h1]
    simp [List.nodup_append, h, h1]

theorem mem_setInsert {K : Type} [DecidableEq K] {a k : K} {l : List K} :
    a ∈ setInsert k l ↔ a = k ∨ a ∈ l := by
  rw [setInsert]
  by_cases h : k ∈ l
  · rw [if_pos h]
    constructor
    · exact Or.inr
    · rintro (rfl | h2)
      · exact h
      · exact h2
  · rw [if_neg h]
    simp [or_comm]

/-- Invariant of a get/spawn interleaving at a point of an unloaded,
unqueued chunk: every `get` returns the producer default, and the number of
jobs spawned for the chunk plus its initial in-flight count equals its final
in-flight count (0 or 1). -/
theorem claim8_trace_invariant {T : Type} (p : Point) :
    ∀ (ops : List GetOrSpawn) (m : DataMap T),
      m.requested_chunks.Nodup →
      mapLookup p m.write_queue = none →
      mapLookup (ChunkCoords.from_point p m.chunk_dimension_tiles)
        m.loaded_chunks = none →
      (∀ r ∈ (runGetSpawn p ops m).results, r = m.default_value) ∧
      (runGetSpawn p ops m).spawned.count
          (ChunkCoords.from_point p m.chunk_dimension_tiles)
        + (if ChunkCoords.from_point p m.chunk_dimension_tiles
            ∈ m.pending_tasks then 1 else 0)
        = (if ChunkCoords.from_point p m.chunk_dimension_tiles
            ∈ (runGetSpawn p ops m).state.pending_tasks then 1 else 0) := by
  intro ops
  induction ops with
  | nil =>
      intro m hreq hwq hnl
      constructor
      · intro r hr
        simp [runGetSpawn] at hr
      · simp [runGetSpawn]
  | cons op rest ih =>
      intro m hreq hwq hnl
      cases op with
      | doGet =>
          have hget : m.get p = (m.default_value,
              { m with requested_chunks := setInsert (ChunkCoords.from_point p m.chunk_dimension_tiles) m.requested_chunks }) := by
            simp only [DataMap.get, hwq, hnl]
          obtain ⟨ihr, ihc⟩ := ih
            { m with requested_chunks := setInsert (ChunkCoords.from_point p m.chunk_dimension_tiles) m.requested_chunks }
            (setInsert_nodup _ hreq) hwq hnl
          constructor
          · intro r hr
            simp only [runGetSpawn, hget] at hr
            rcases List.mem_cons.mp hr with h | h
            · exact h
            · exact ihr r h
          · simp only [runGetSpawn, hget]
            exact ihc
      | doSpawn =>
          have hreq2 : ((data_map_spawn_tasks_system m).1).requested_chunks.Nodup := by
            rw [spawn_requested_eq]
            exact List.nodup_nil
          obtain ⟨ihr, ihc⟩ := ih (data_map_spawn_tasks_system m).1 hreq2 hwq hnl
          constructor
          · intro r hr
            simp only [runGetSpawn] at hr
            exact ihr r hr
          · simp only [runGetSpawn]
            rw [List.count_append]
            have hcount : (data_map_spawn_tasks_system m).2.count
                (ChunkCoords.from_point p m.chunk_dimension_tiles)
                = if ChunkCoords.from_point p m.chunk_dimension_tiles
                    ∈ m.requested_chunks ∧
                  ChunkCoords.from_point p m.chunk_dimension_tiles
                    ∉ m.pending_tasks then 1 else 0 := by
              rw [spawn_spawned_eq]
              by_cases h1 : ChunkCoords.from_point p m.chunk_dimension_tiles
                  ∈ m.requested_chunks ∧
                  ChunkCoords.from_point p m.chunk_dimension_tiles
                  ∉ m.pending_tasks
              · rw [if_pos h1]
                exact List.count_eq_one_of_mem (hreq.filter _)
                  (List.mem_filter.mpr ⟨h1.1, by simpa using h1.2⟩)
              · rw [if_neg h1]
                apply List.count_eq_zero_of_not_mem
                intro hmem
                obtain ⟨hm1, hm2⟩ := List.mem_filter.mp hmem
                exact h1 ⟨hm1, by simpa using hm2⟩
            have hpend : ChunkCoords.from_point p m.chunk_dimension_tiles
                ∈ (data_map_spawn_tasks_system m).1.pending_tasks
                ↔ ChunkCoords.from_point p m.chunk_dimension_tiles
                    ∈ m.pending_tasks ∨
                  (ChunkCoords.from_point p m.chunk_dimension_tiles
                    ∈ m.requested_chunks ∧
                  ChunkCoords.from_point p m.chunk_dimension_tiles
                    ∉ m.pending_tasks) := by
              rw [spawn_pending_eq, List.mem_append]
              constructor
              · rintro (h | h)
                · exact Or.inl h
                · obtain ⟨h1, h2⟩ := List.mem_filter.mp h
                  exact Or.inr ⟨h1, by simpa using h2⟩
              · rintro (h | h)
                · exact Or.inl h
                · exact Or.inr (List.mem_filter.mpr ⟨h.1, by simpa using h.2⟩)
            rw [hcount]
            have hdim : (data_map_spawn_tasks_system m).1.chunk_dimension_tiles
                = m.chunk_dimension_tiles := rfl
            rw [hdim] at ihc
            simp only [hpend] at ihc
            by_cases h1 : ChunkCoords.from_point p m.chunk_dimension_tiles
                ∈ m.pending_tasks
            · rw [if_neg (by tauto), if_pos h1]
              rw [if_pos (Or.inl h1)] at ihc
              omega
            · by_cases h2 : ChunkCoords.from_point p m.chunk_dimension_tiles
                  ∈ m.requested_chunks
              · rw [if_pos ⟨h2, h1⟩, if_neg h1]
                rw [if_pos (Or.inr ⟨h2, h1⟩)] at ihc
                omega
              · rw [if_neg (by tauto), if_neg h1]
                rw [if_neg (by tauto)] at ihc
                omega

/-- C8: at a point whose chunk is neither loaded nor covered by a
`write_queue` entry, any interleaving of `get` calls and spawn passes (with
no generation completing) returns the producer's default value from every
`get`, and spawns at most one generation job for that chunk in total
(counting a pre-existing in-flight job). -/
theorem claim8_get_miss_idempotent {T : Type} (m : DataMap T) (p : Point)
    (ops : List GetOrSpawn) (hreq : m.requested_chunks.Nodup)
    (hwq : mapLookup p m.write_queue = none)
    (hnl : mapLookup (ChunkCoords.from_point p m.chunk_dimension_tiles)
      m.loaded_chunks = none) :
    (∀ r ∈ (runGetSpawn p ops m).results, r = m.default_value) ∧
    (runGetSpawn p ops m).spawned.count
        (ChunkCoords.from_point p m.chunk_dimension_tiles)
      + (if ChunkCoords.from_point p m.chunk_dimension_tiles
          ∈ m.pending_tasks then 1 else 0) ≤ 1 := by
  obtain ⟨h1, h2⟩ := claim8_trace_invariant p ops m hreq hwq hnl
  refine ⟨h1, ?_⟩
  rw [h2]
  split <;> omega

/-- Witness for C8 at a concrete input: two `get`s interleaved with two spawn
passes on the fresh map; both `get`s return the default 0 and exactly one job
is spawned for the chunk. -/
theorem claim8_witness :
    (∀ r ∈ (runGetSpawn (⟨0, 0⟩ : Point)
      [GetOrSpawn.doGet, GetOrSpawn.doSpawn, GetOrSpawn.doGet,
        GetOrSpawn.doSpawn] (DataMap.new Nat 0 16 3)).results, r = 0) ∧
    (runGetSpawn (⟨0, 0⟩ : Point)
      [GetOrSpawn.doGet, GetOrSpawn.doSpawn, GetOrSpawn.doGet,
        GetOrSpawn.doSpawn] (DataMap.new Nat 0 16 3)).spawned.count
        (ChunkCoords.from_point ⟨0, 0⟩ 16)
      + (if ChunkCoords.from_point ⟨0, 0⟩ 16
          ∈ (DataMap.new Nat 0 16 3).pending_tasks then 1 else 0) ≤ 1 :=
  claim8_get_miss_idempotent (DataMap.new Nat 0 16 3) ⟨0, 0⟩
    [GetOrSpawn.doGet, GetOrSpawn.doSpawn, GetOrSpawn.doGet, GetOrSpawn.doSpawn]
    List.nodup_nil rfl rfl

/-! Helper lemmas for the mutual-exclusion invariant (claim 3). -/

theorem applyCompletedChunk_requested {T : Type} (c : ChunkCoords)
    (gch : DataChunk T) (m : DataMap T) :
    (applyCompletedChunk c gch m).requested_chunks = m.requested_chunks := rfl

theorem applyCompletedChunk_pending {T : Type} (c : ChunkCoords)
    (gch : DataChunk T) (m : DataMap T) :
    (applyCompletedChunk c gch m).pending_tasks = m.pending_tasks := rfl

/-- Inserting a coordinate that is neither loaded nor pending into
`requested_chunks` preserves mutual exclusion. -/
theorem mutex_requested_insert {T : Type} (m : DataMap T) (c : ChunkCoords)
    (hm : MutuallyExclusive m) (h1 : c ∉ mapKeys m.loaded_chunks)
    (h2 : c ∉ m.pending_tasks) :
    MutuallyExclusive
      { m with requested_chunks := setInsert c m.requested_chunks } := by
  obtain ⟨hA, hB⟩ := hm
  refine ⟨?_, hB⟩
  intro a ha
  rcases mem_setInsert.mp ha with rfl | ha2
  · exact ⟨h2, h1⟩
  · exact hA a ha2

/-- A fold whose every step preserves mutual exclusion preserves it. -/
theorem mutex_foldl {T α : Type} (f : DataMap T → α → DataMap T)
    (hf : ∀ acc a, MutuallyExclusive acc → MutuallyExclusive (f acc a)) :
    ∀ (l : List α) (m : DataMap T),
      MutuallyExclusive m → MutuallyExclusive (l.foldl f m) := by
  intro l
  induction l with
  | nil =>
      intro m hm
      exact hm
  | cons a rest ih =>
      intro m hm
      exact ih _ (hf m a hm)

/-- `DataMap::init` preserves mutual exclusion: every request it inserts is
guarded by the not-loaded and not-pending checks. -/
theorem mutex_init {T : Type} (m : DataMap T) (t : Nat)
    (hm : MutuallyExclusive m) : MutuallyExclusive (m.init t) := by
  rw [DataMap.init]
  refine mutex_foldl _ ?_ _ _ hm
  intro acc xo hacc
  refine mutex_foldl _ ?_ _ _ hacc
  intro acc2 yo hacc2
  simp only []
  by_cases h : (⟨0 + xo, 0 + yo⟩ : ChunkCoords) ∉ mapKeys acc2.loaded_chunks ∧
      (⟨0 + xo, 0 + yo⟩ : ChunkCoords) ∉ acc2.pending_tasks
  · rw [if_pos h]
    exact mutex_requested_insert _ _ hacc2 h.1 h.2
  · rw [if_neg h]
    exact hacc2

/-- The loaders' request loop preserves mutual exclusion. -/
theorem mutex_loaderRequestPass {T : Type} (required : List ChunkCoords)
    (m : DataMap T) (hm : MutuallyExclusive m) :
    MutuallyExclusive (loaderRequestPass required m) := by
  refine mutex_foldl _ ?_ _ _ hm
  intro acc c hacc
  by_cases h : c ∉ mapKeys acc.loaded_chunks ∧ c ∉ acc.pending_tasks ∧
      c ∉ acc.requested_chunks
  · rw [if_pos h]
    exact mutex_requested_insert _ _ hacc h.1 h.2.1
  · rw [if_neg h]
    exact hacc

/-- The non-evicting loader system preserves mutual exclusion. -/
theorem mutex_loader {T : Type} (focuses : List ChunkCoords) (m : DataMap T)
    (hm : MutuallyExclusive m) :
    MutuallyExclusive (data_map_load_unload_system focuses m) := by
  refine mutex_foldl _ ?_ _ _ hm
  intro acc focus hacc
  exact mutex_loaderRequestPass _ _ hacc

/-- Evicting loaded chunks preserves mutual exclusion. -/
theorem mutex_loaded_filter {T : Type} (m : DataMap T)
    (q : ChunkCoords × DataChunk T → Bool) (hm : MutuallyExclusive m) :
    MutuallyExclusive { m with loaded_chunks := m.loaded_chunks.filter q } := by
  obtain ⟨hA, hB⟩ := hm
  constructor
  · intro a ha
    exact ⟨(hA a ha).1, fun hc => (hA a ha).2 (mem_mapKeys_filter _ hc)⟩
  · intro a ha hc
    exact hB a ha (mem_mapKeys_filter _ hc)

/-- The evicting (player) loader system preserves mutual exclusion. -/
theorem mutex_loader_player {T : Type} (focuses : List ChunkCoords)
    (m : DataMap T) (hm : MutuallyExclusive m) :
    MutuallyExclusive (data_map_load_unload_system_for_player focuses m) := by
  refine mutex_foldl _ ?_ _ _ hm
  intro acc focus hacc
  exact mutex_loaderRequestPass _ _ (mutex_loaded_filter _ _ hacc)

/-- The spawn pass preserves mutual exclusion: it clears `requested_chunks`
and every coordinate it moves into `pending_tasks` was requested, hence not
loaded. -/
theorem mutex_spawn {T : Type} (m : DataMap T) (hm : MutuallyExclusive m) :
    MutuallyExclusive (data_map_spawn_tasks_system m).1 := by
  have hld : (data_map_spawn_tasks_system m).1.loaded_chunks
      = m.loaded_chunks := rfl
  constructor
  · intro c hc
    rw [spawn_requested_eq] at hc
    exact absurd hc (List.not_mem_nil c)
  · intro c hc
    rw [spawn_pending_eq, List.mem_append] at hc
    rw [hld]
    rcases hc with h | h
    · exact hm.2 c h
    · exact (hm.1 c (List.mem_filter.mp h).1).2

theorem mem_pendingFilterFold {T : Type} :
    ∀ (l : List (ChunkCoords × DataChunk T)) (pend : List ChunkCoords)
      (a : ChunkCoords),
      a ∈ l.foldl (fun pd cc => pd.filter (fun c => c ≠ cc.1)) pend →
      a ∈ pend := by
  intro l
  induction l with
  | nil =>
      intro pend a h
      exact h
  | cons cc rest ih =>
      intro pend a h
      exact List.mem_of_mem_filter (ih _ _ h)

theorem pendingFilterFold_not_mem_completed {T : Type} :
    ∀ (l : List (ChunkCoords × DataChunk T)) (pend : List ChunkCoords)
      (cc : ChunkCoords × DataChunk T), cc ∈ l →
      cc.1 ∉ l.foldl (fun pd cc2 => pd.filter (fun c => c ≠ cc2.1)) pend := by
  intro l
  induction l with
  | nil =>
      intro pend cc h
      cases h
  | cons c0 rest ih =>
      intro pend cc h
      rcases List.mem_cons.mp h with h1 | h2
      · intro hc
        rw [List.foldl_cons] at hc
        have h3 := List.mem_filter.mp (mem_pendingFilterFold rest _ _ hc)
        rw [h1] at h3
        simp at h3
      · exact ih _ cc h2

/-- Merging one completed chunk whose coordinate is neither requested nor
pending preserves mutual exclusion. -/
theorem mutex_applyCompletedChunk {T : Type} (c : ChunkCoords)
    (gch : DataChunk T) (m : DataMap T) (hm : MutuallyExclusive m)
    (h1 : c ∉ m.requested_chunks) (h2 : c ∉ m.pending_tasks) :
    MutuallyExclusive (applyCompletedChunk c gch m) := by
  obtain ⟨hA, hB⟩ := hm
  constructor
  · intro a ha
    rw [applyCompletedChunk_requested] at ha
    rw [applyCompletedChunk_pending]
    refine ⟨(hA a ha).1, ?_⟩
    intro hc
    rw [applyCompletedChunk_loaded_chunks] at hc
    rcases mem_mapKeys_mapInsert _ _ hc with rfl | hc2
    · exact h1 ha
    · exact (hA a ha).2 hc2
  · intro a ha
    rw [applyCompletedChunk_pending] at ha
    intro hc
    rw [applyCompletedChunk_loaded_chunks] at hc
    rcases mem_mapKeys_mapInsert _ _ hc with rfl | hc2
    · exact h2 ha
    · exact hB a ha hc2

theorem mutex_merge_fold {T : Type} :
    ∀ (l : List (ChunkCoords × DataChunk T)) (m : DataMap T),
      MutuallyExclusive m →
      (∀ cc ∈ l, cc.1 ∉ m.requested_chunks ∧ cc.1 ∉ m.pending_tasks) →
      MutuallyExclusive
        (l.foldl (fun acc cc => applyCompletedChunk cc.1 cc.2 acc) m) := by
  intro l
  induction l with
  | nil =>
      intro m hm _
      exact hm
  | cons cc rest ih =>
      intro m hm hcond
      rw [List.foldl_cons]
      apply ih
      · exact mutex_applyCompletedChunk _ _ _ hm
          (hcond cc (List.mem_cons_self _ _)).1
          (hcond cc (List.mem_cons_self _ _)).2
      · intro cc2 h2
        have hc := hcond cc2 (List.mem_cons_of_mem _ h2)
        rw [applyCompletedChunk_requested, applyCompletedChunk_pending]
        exact hc

/-- The completion-merge pass preserves mutual exclusion, provided every
completed job's coordinate has a pending task (which spawn and merge keep in
lock step with the task entities). -/
theorem mutex_merge {T : Type} (completed : List (ChunkCoords × DataChunk T))
    (m : DataMap T) (hm : MutuallyExclusive m)
    (hok : ∀ cc ∈ completed, cc.1 ∈ m.pending_tasks) :
    MutuallyExclusive
      (data_map_process_completed_tasks_system completed m) := by
  rw [data_map_process_completed_tasks_system]
  apply mutex_merge_fold
  · obtain ⟨hA, hB⟩ := hm
    constructor
    · intro a ha
      refine ⟨?_, (hA a ha).2⟩
      intro hc
      exact (hA a ha).1 (mem_pendingFilterFold _ _ _ hc)
    · intro a ha
      exact hB a (mem_pendingFilterFold _ _ _ ha)
  · intro cc hcc
    constructor
    · intro hc
      exact (hm.1 cc.1 hc).1 (hok cc hcc)
    · exact pendingFilterFold_not_mem_completed _ _ cc hcc

/-- Every per-tick pass preserves mutual exclusion. -/
theorem mutex_applyOp_pass {T : Type} (m : DataMap T) (op : SysOp T)
    (hm : MutuallyExclusive m) (hok : OpOk m op) (hp : IsPassOp op) :
    MutuallyExclusive (applyOp op m) := by
  cases op with
  | opGet p => exact hp.elim
  | opGetOption p => exact hp.elim
  | opWrite p v => exact hp.elim
  | opInit t => exact mutex_init m t hm
  | opLoader fs => exact mutex_loader fs m hm
  | opLoaderPlayer fs => exact mutex_loader_player fs m hm
  | opSpawn => exact mutex_spawn m hm
  | opMerge comp => exact mutex_merge comp m hm hok

/-- C3 counterexample: the claim fails on the code as stated.  From the fresh
(mutually exclusive) map, the well-formed sequence `get (0,0); spawn pass;
get (0,0)` is built from the claim's own operations, yet in the resulting
state chunk (0,0) is simultaneously in `requested_chunks` (re-inserted by the
second get-miss, which checks only `loaded_chunks`) and in `pending_tasks`
(its generation job is in flight). -/
theorem claim3_counterexample :
    MutuallyExclusive (DataMap.new Nat 0 16 3) ∧
    OpsOk [SysOp.opGet ⟨0, 0⟩, SysOp.opSpawn, SysOp.opGet ⟨0, 0⟩]
      (DataMap.new Nat 0 16 3) ∧
    ¬MutuallyExclusive (runOps
      [SysOp.opGet ⟨0, 0⟩, SysOp.opSpawn, SysOp.opGet ⟨0, 0⟩]
      (DataMap.new Nat 0 16 3)) := by
  refine ⟨by decide, ⟨trivial, trivial, trivial, trivial⟩, by decide⟩

/-- C3 amended: mutual exclusion of `requested_chunks`, `pending_tasks` and
`loaded_chunks` is an invariant of the per-tick passes alone — loader (both
variants), `init`, spawn and completion-merge, the merge consuming only jobs
of pending coordinates — from any mutually exclusive state; the point
accesses `get`/`get_option`/`write` break it, since their miss path inserts
into `requested_chunks` after checking only `loaded_chunks` (see the
counterexample). -/
theorem claim3_mutual_exclusion_amended {T : Type} (m : DataMap T)
    (ops : List (SysOp T)) (hm : MutuallyExclusive m) (hok : OpsOk ops m)
    (hpass : ∀ op ∈ ops, IsPassOp op) :
    MutuallyExclusive (runOps ops m) := by
  induction ops generalizing m with
  | nil => exact hm
  | cons op rest ih =>
      obtain ⟨h1, h2⟩ := hok
      exact ih (applyOp op m)
        (mutex_applyOp_pass m op hm h1 (hpass op (List.mem_cons_self _ _)))
        h2 (fun o ho => hpass o (List.mem_cons_of_mem _ ho))

/-- Witness for C3 at a concrete input: loader pass then spawn pass from the
fresh map keeps the three collections mutually exclusive. -/
theorem claim3_witness :
    MutuallyExclusive (runOps [SysOp.opLoader [⟨0, 0⟩], SysOp.opSpawn]
      (DataMap.new Nat 0 16 0)) :=
  claim3_mutual_exclusion_amended (DataMap.new Nat 0 16 0)
    [SysOp.opLoader [⟨0, 0⟩], SysOp.opSpawn] (by decide)
    ⟨trivial, trivial, trivial⟩
    (by
      intro op hop
      cases hop with
      | head => trivial
      | tail _ h2 =>
          cases h2 with
          | head => trivial
          | tail _ h3 => cases h3)

end ChunkSim

